import Mathlib

/-!
Shallow embedding of the static memory planner in
`torch/csrc/jit/passes/memory_planning.cpp`, together with theorems checking
the natural-language specification of that pass against this embedding.

Modelling conventions:
* Graph values are identified by natural-number ids; each value carries its
  (optional tensor) type in the `outputs` list of its producing node.
* Nodes are identified by natural-number ids; a graph is the program-ordered
  list of its nodes together with the next-fresh-id counters (mirroring the
  monotone unique counters of `torch::jit::Graph`).
* `uint64_t` arithmetic is `Nat` arithmetic reduced `% 2 ^ 64` where the C++
  source adds two `uint64_t` quantities.
* External collaborators (operator registry, liveness analysis, device
  picking, element sizes, and the three packing-strategy implementations,
  whose bodies are not part of this excerpt) are parameters, bundled in
  `ExtEnv`.
* Fallible, graph-mutating code is modelled with `Except`; an error carries
  the graph as mutated at the moment of the abort, mirroring the fact that a
  thrown `c10::Error` leaves the heap-allocated graph in its current state.
-/

namespace MemPlan

/-- Modulus of C++ `uint64_t` arithmetic. -/
def U64 : Nat := 2 ^ 64

/-- Modelled from the spec: `Region{offset, size}` (declared in
`memory_planning.h`, which is not part of the excerpt): an unsigned byte
range `[offset, offset+size)` inside the planned arena. -/
structure Region where
  offset : Nat
  size : Nat
deriving DecidableEq

/-- Modelled from the spec: `LiveRange{start, end}` (declared in
`memory_planning.h`, which is not part of the excerpt): the closed interval
of instruction indices during which a value is live.  The C++ field `end` is
a Lean keyword and is rendered `stop`. -/
structure LiveRange where
  start : Nat
  stop : Nat
deriving DecidableEq

/-- The fragment of `c10::TensorType` that `memory_planning.cpp` reads:
an optional scalar type (represented by its enum value), the optional
concrete per-axis extents, and the optional concrete per-axis strides. -/
structure TensorTy where
  scalarType : Option Nat
  csizes : Option (List Nat)
  cstrides : Option (List Nat)
deriving DecidableEq

/-- A value's type: either a tensor type (the `cast<TensorType>` succeeds)
or anything else (the cast returns null). -/
inductive VType where
  | tensor (ttp : TensorTy)
  | other
deriving DecidableEq

/-- The node attributes written by the pass (`attr::total_size`,
`attr::device`, `attr::size`, `attr::offset`, `attr::sizes`, `attr::stride`,
`attr::dtype`).  Absent attributes are `none`. -/
structure Attrs where
  total_size : Option Nat := none
  device : Option Nat := none
  size : Option Nat := none
  offset : Option Nat := none
  sizes : Option (List Nat) := none
  stride : Option (List Nat) := none
  dtype : Option Nat := none
deriving DecidableEq

/-- A graph node: identity, operator kind, input value ids, output values
(with their types), and attributes. -/
structure MNode where
  nid : Nat
  kind : String
  inputs : List Nat
  outputs : List (Nat × VType)
  attrs : Attrs
deriving DecidableEq

/-- A graph: its nodes in program order plus the monotone fresh-id counters
of `torch::jit::Graph`. -/
structure MGraph where
  nodes : List MNode
  nextNid : Nat
  nextVid : Nat
deriving DecidableEq

/-- `at::kCPU` (`DeviceType::CPU = 0`). -/
def kCPU : Nat := 0

/-- Kind of the arena-allocation directive `prim::AllocateStorage`. -/
def allocStorageKind : String := "prim::AllocateStorage"

/-- Kind of the binding directive `prim::AllocateTensor`. -/
def allocTensorKind : String := "prim::AllocateTensor"

/-- Modelled from the spec: the `Strategy` selector enum (declared in
`memory_planning.h`, not in the excerpt).  `UNKNOWN` stands for any selector
value outside the known set, which the C++ `switch` sends to `default:`. -/
inductive Strategy where
  | NAIVE
  | GREEDY_BY_SIZE
  | LINEAR_SCAN
  | GREEDY_BY_BREADTH
  | UNKNOWN
deriving DecidableEq

/-- Modelled from the spec: `c10::TensorType::numel` (not in the excerpt) is
the element count — the product of the concrete extents when they are all
known, absent otherwise. -/
def TensorTy.numel (t : TensorTy) : Option Nat :=
  t.csizes.map List.prod

/-- `computeStorageSize` (memory_planning.cpp:14-53): the byte size of a
value, `none` when the value is not a tensor, has no scalar type, has no
concrete sizes, or has no element count.  The external `c10::elementSize`
table is the parameter `elemSize`.  The source multiplies
`numel.value() * element_size` in `size_t`/`uint64_t`, so the product is
reduced `% 2 ^ 64`. -/
def computeStorageSize (elemSize : Nat → Nat) (ty : VType) : Option Nat :=
  match ty with
  | .other => none
  | .tensor ttp =>
    if ttp.scalarType.isNone then none
    else if ttp.csizes.isNone then none
    else
      match ttp.scalarType with
      | none => none
      | some st =>
        let element_size := elemSize st
        match ttp.numel with
        | none => none
        | some n => some ((n * element_size) % U64)

/-- Modelled from the spec: `at::detail::defaultStrides` (not in the
excerpt) — row-major (contiguous) strides: the stride of an axis is the
product of all later extents. -/
def defaultStrides : List Nat → List Nat
  | [] => []
  | _ :: rest => rest.prod :: defaultStrides rest

/-- `getSizesStrides` (memory_planning.cpp:55-76): the extents are the
concrete sizes unless they are absent, empty, or start with 0 (then `[0]`);
the strides are the concrete strides unless they are absent, empty, or start
with 0 (then the row-major default strides of the computed extents). -/
def getSizesStrides (ttp : TensorTy) : List Nat × List Nat :=
  let sizes : List Nat :=
    match ttp.csizes with
    | some s => if 0 < s.length && s.headD 0 != 0 then s else [0]
    | none => [0]
  let strides : List Nat :=
    match ttp.cstrides with
    | some s => if 0 < s.length && s.headD 0 != 0 then s else defaultStrides sizes
    | none => defaultStrides sizes
  (sizes, strides)

/-- `hasOutVariant` (memory_planning.cpp:128-145): some registered operator
overload for the node's kind has an argument named exactly `"out"`.  The
external operator registry maps a kind to the argument-name lists of its
overloads. -/
def hasOutVariant (reg : String → List (List String)) (node : MNode) : Bool :=
  (reg node.kind).any fun variant_args => variant_args.any fun arg => arg == "out"

/-- The inner loop of `getManagedValues` (memory_planning.cpp:160-177) over
one node's outputs: returns the managed `(value, size)` pairs and the leaked
values.  An always-alive output is skipped; an output whose size is defined
and positive is managed; otherwise the output is leaked (the
`isOptimizableContainerType` branch and the warning branch of the source
both insert into `leaked_values`, so they are merged here). -/
def processOutputs (elemSize : Nat → Nat) (aa : List Nat) :
    List (Nat × VType) → List (Nat × Nat) × List Nat
  | [] => ([], [])
  | (v, ty) :: rest =>
    let r := processOutputs elemSize aa rest
    if aa.contains v then r
    else
      match computeStorageSize elemSize ty with
      | some s => if 0 < s then ((v, s) :: r.1, r.2) else (r.1, v :: r.2)
      | none => (r.1, v :: r.2)

/-- `getManagedValues` (memory_planning.cpp:147-180) including the
`leaked_values` set that the source computes and then discards: walks the
nodes in program order, keeps the nodes that have an out variant, and
classifies their outputs with `processOutputs`. -/
def getManagedValuesFull (reg : String → List (List String))
    (elemSize : Nat → Nat) (aa : List Nat) :
    List MNode → List MNode × List (Nat × Nat) × List Nat
  | [] => ([], [], [])
  | node :: rest =>
    let r := getManagedValuesFull reg elemSize aa rest
    if hasOutVariant reg node then
      let po := processOutputs elemSize aa node.outputs
      (node :: r.1, po.1 ++ r.2.1, po.2 ++ r.2.2)
    else r

/-- `getManagedValues` as returned by the source (the leaked set is a local
variable there and is dropped). -/
def getManagedValues (reg : String → List (List String)) (elemSize : Nat → Nat)
    (nodes : List MNode) (always_alive_values : List Nat) :
    List MNode × List (Nat × Nat) :=
  ((getManagedValuesFull reg elemSize always_alive_values nodes).1,
   (getManagedValuesFull reg elemSize always_alive_values nodes).2.1)

/-- The external collaborators of the pass: `tensorexpr::pickDeviceType`,
`jit::GetAlwaysAliveValues`, `jit::GetLiveness`, the operator registry
(`getAllOperatorsFor`), `c10::elementSize`, and the three packing-strategy
implementations `greedyBySize`, `linearScanHeuristic`,
`greedyByOperatorBreadth` whose bodies are not part of the excerpt. -/
structure ExtEnv where
  pickDevice : MGraph → Option Nat
  alwaysAlive : MGraph → List Nat
  liveness : MGraph → List Nat → List (Nat × LiveRange)
  registry : String → List (List String)
  elemSize : Nat → Nat
  greedyBySize : List (Nat × Nat) → List (Nat × LiveRange) → List (Nat × Region)
  linearScanHeuristic : List (Nat × Nat) → List (Nat × LiveRange) → List (Nat × Region)
  greedyByOperatorBreadth :
    List (Nat × Nat) → List (Nat × LiveRange) → List MNode → List (Nat × Region)

/-- `getManagedStuff` (memory_planning.cpp:182-202): collect the out nodes,
the managed `(value, size)` pairs, and the live ranges restricted to the
managed values. -/
def getManagedStuff (E : ExtEnv) (g : MGraph) :
    List MNode × List (Nat × Nat) × List (Nat × LiveRange) :=
  let always_alive := E.alwaysAlive g
  let live_ranges := E.liveness g always_alive
  let om := getManagedValues E.registry E.elemSize g.nodes always_alive
  let managed_ranges :=
    live_ranges.filter fun lvr => (om.2.map Prod.fst).contains lvr.1
  (om.1, om.2, managed_ranges)

/-- `getTotalAllocationSize` (memory_planning.cpp:204-211): fold `max` of
`offset + size` (a `uint64_t` sum) over the plan, starting from 0. -/
def getTotalAllocationSize (allocations : List (Nat × Region)) : Nat :=
  allocations.foldl
    (fun total_size item => max total_size ((item.2.offset + item.2.size) % U64)) 0

/-- `insertAllocStorageNode` (memory_planning.cpp:78-92): create the
`prim::AllocateStorage` node carrying the total size and the device picked
by `tensorexpr::pickDeviceType` (CPU when none), and insert it before the
first node of the graph. -/
def insertAllocStorageNode (E : ExtEnv) (g : MGraph) (total_size : Nat) :
    MNode × MGraph :=
  let dev : Nat :=
    match E.pickDevice g with
    | some d => d
    | none => kCPU
  let storage : MNode :=
    { nid := g.nextNid, kind := allocStorageKind, inputs := [],
      outputs := [(g.nextVid, VType.other)],
      attrs := { total_size := some total_size, device := some dev } }
  (storage,
   { nodes := storage :: g.nodes, nextNid := g.nextNid + 1, nextVid := g.nextVid + 1 })

/-- `Node::addInput`: append a value id to the inputs of the node with the
given id. -/
def addInputTo (nodes : List MNode) (target : Nat) (v : Nat) : List MNode :=
  nodes.map fun n => if n.nid == target then { n with inputs := n.inputs ++ [v] } else n

/-- Setting attributes on the node with the given id. -/
def setAttrsOn (nodes : List MNode) (target : Nat) (f : Attrs → Attrs) : List MNode :=
  nodes.map fun n => if n.nid == target then { n with attrs := f n.attrs } else n

/-- `Node::insertBefore`: insert a new node directly before the first node
with the given id (at the end when no node has it, which cannot happen in
the modelled flows). -/
def insertBeforeNid (nodes : List MNode) (target : Nat) (nw : MNode) : List MNode :=
  match nodes with
  | [] => [nw]
  | n :: rest =>
    if n.nid == target then nw :: n :: rest else n :: insertBeforeNid rest target nw

/-- `Value::node()`: the first node having the value among its outputs. -/
def findProducer (nodes : List MNode) (v : Nat) : Option MNode :=
  nodes.find? fun n => n.outputs.any fun o => o.1 == v

/-- The type recorded for a value in a node's output list. -/
def lookupOutputTy (node : MNode) (v : Nat) : Option VType :=
  (node.outputs.find? fun o => o.1 == v).map Prod.snd

/-- `Node::output()`: the first output value id of a node. -/
def nodeOutput0 (n : MNode) : Nat :=
  (n.outputs.headD (0, VType.other)).1

/-- The fresh `prim::AllocateTensor` node created by `graph->create` (line
107 of the source), before any attribute is set. -/
def allocNodeFor (g : MGraph) : MNode :=
  { nid := g.nextNid, kind := allocTensorKind, inputs := [],
    outputs := [(g.nextVid, VType.other)], attrs := {} }

/-- Lines 107-111 of the source: create the alloc node, give the producing
node the alloc output as an extra input, insert the alloc node before the
producing node, and connect the alloc node to the storage output. -/
def spliceAllocNode (storage : MNode) (g : MGraph) (node : MNode) : MGraph :=
  let alloc0 := allocNodeFor g
  let nodes1 := addInputTo g.nodes node.nid g.nextVid
  let nodes2 := insertBeforeNid nodes1 node.nid alloc0
  let nodes3 := addInputTo nodes2 alloc0.nid (nodeOutput0 storage)
  { nodes := nodes3, nextNid := g.nextNid + 1, nextVid := g.nextVid + 1 }

/-- The body of the loop in `insertAllocTensorNodes`
(memory_planning.cpp:99-125) for one plan entry.  Mirroring the statement
order of the source: the producing node gets the fresh alloc output as an
extra input and the bare alloc node is inserted before it *before* the
`TORCH_CHECK` that `offset + size <= total_size` runs; the attributes other
than `dtype` are written before `scalarType().value()` is read.  An error
carries the graph as mutated at the abort. -/
def allocTensorStep (storage : MNode) (g : MGraph) (item : Nat × Region) :
    Except (String × MGraph) MGraph :=
  let total_size := storage.attrs.total_size.getD 0
  let region := item.2
  match findProducer g.nodes item.1 with
  | none => .error ("value has no producing node", g)
  | some node =>
    let g3 := spliceAllocNode storage g node
    match lookupOutputTy node item.1 with
    | some (VType.tensor ttp) =>
      if (region.offset + region.size) % U64 ≤ total_size then
        let g4 : MGraph :=
          { g3 with
            nodes := setAttrsOn g3.nodes (allocNodeFor g).nid fun a =>
              { a with size := some region.size, offset := some region.offset,
                       sizes := some (getSizesStrides ttp).1,
                       stride := some (getSizesStrides ttp).2,
                       device := some (storage.attrs.device.getD 0) } }
        match ttp.scalarType with
        | some st =>
          .ok { g4 with
                nodes := setAttrsOn g4.nodes (allocNodeFor g).nid fun a =>
                  { a with dtype := some st } }
        | none => .error ("bad optional access", g4)
      else
        .error ("trying to create an allocation that exceeds previously planned memory", g3)
    | _ => .error ("expected TensorType", g3)

/-- `insertAllocTensorNodes` (memory_planning.cpp:94-126): run
`allocTensorStep` over the plan entries in order, stopping at the first
abort. -/
def insertAllocTensorNodes (storage : MNode) (g : MGraph) :
    List (Nat × Region) → Except (String × MGraph) MGraph
  | [] => .ok g
  | item :: rest =>
    match allocTensorStep storage g item with
    | .ok g2 => insertAllocTensorNodes storage g2 rest
    | .error e => .error e

/-- The tail of `planMemory` (memory_planning.cpp:257-267): compute the
total size, insert the storage node, insert the alloc-tensor nodes.
(`printAllocation` only prints and is omitted.) -/
def applyPlan (E : ExtEnv) (g : MGraph) (allocations : List (Nat × Region)) :
    Except (String × MGraph) MGraph :=
  let total_size := getTotalAllocationSize allocations
  let sg := insertAllocStorageNode E g total_size
  insertAllocTensorNodes sg.1 sg.2 allocations

/-- `planMemory` (memory_planning.cpp:230-268): collect the managed data,
dispatch on the strategy (NAIVE and the `default:` branch return with the
graph untouched), then apply the computed plan. -/
def planMemory (E : ExtEnv) (g : MGraph) (strat : Strategy) :
    Except (String × MGraph) MGraph :=
  let ms := getManagedStuff E g
  match strat with
  | .NAIVE => .ok g
  | .GREEDY_BY_SIZE => applyPlan E g (E.greedyBySize ms.2.1 ms.2.2)
  | .LINEAR_SCAN => applyPlan E g (E.linearScanHeuristic ms.2.1 ms.2.2)
  | .GREEDY_BY_BREADTH => applyPlan E g (E.greedyByOperatorBreadth ms.2.1 ms.2.2 ms.1)
  | .UNKNOWN => .ok g

/-- The plan a strategy selector computes inside `planMemory` (empty for the
non-rewriting selectors). -/
def stratPlan (E : ExtEnv) (g : MGraph) (strat : Strategy) : List (Nat × Region) :=
  let ms := getManagedStuff E g
  match strat with
  | .NAIVE => []
  | .GREEDY_BY_SIZE => E.greedyBySize ms.2.1 ms.2.2
  | .LINEAR_SCAN => E.linearScanHeuristic ms.2.1 ms.2.2
  | .GREEDY_BY_BREADTH => E.greedyByOperatorBreadth ms.2.1 ms.2.2 ms.1
  | .UNKNOWN => []

/-- The graph an application result carries (the mutated-so-far graph in the
error case). -/
def resGraph (r : Except (String × MGraph) MGraph) : MGraph :=
  match r with
  | .ok g => g
  | .error e => e.2

/-- Whether an application result is an abort. -/
def isErr (r : Except (String × MGraph) MGraph) : Bool :=
  match r with
  | .ok _ => false
  | .error _ => true

/-- The abort message of an application result. -/
def errMsg (r : Except (String × MGraph) MGraph) : Option String :=
  match r with
  | .ok _ => none
  | .error e => some e.1

/-- Number of nodes of a given kind. -/
def countKind (nodes : List MNode) (k : String) : Nat :=
  (nodes.filter fun n => n.kind == k).length

/-- Well-formedness of a graph: node ids are distinct and below the node
counter, and all output value ids are below the value counter. -/
def WfGraph (g : MGraph) : Prop :=
  (g.nodes.map MNode.nid).Nodup ∧
  (∀ n ∈ g.nodes, n.nid < g.nextNid) ∧
  (∀ n ∈ g.nodes, ∀ o ∈ n.outputs, o.1 < g.nextVid)

instance (g : MGraph) : Decidable (WfGraph g) := by
  unfold WfGraph; infer_instance

/-! ## Helper lemmas about the total-size fold -/

/-- The `uint64_t` sum `offset + size` of a plan entry. -/
def entrySum (p : Nat × Region) : Nat :=
  (p.2.offset + p.2.size) % U64

lemma getTotalAllocationSize_eq_foldl (l : List (Nat × Region)) :
    getTotalAllocationSize l = l.foldl (fun t i => max t (entrySum i)) 0 := rfl

lemma foldl_max_le_start (l : List (Nat × Region)) :
    ∀ acc : Nat, acc ≤ l.foldl (fun t i => max t (entrySum i)) acc := by
  induction l with
  | nil => intro acc; exact Nat.le_refl acc
  | cons x rest ih =>
    intro acc
    exact le_trans (Nat.le_max_left acc (entrySum x)) (ih (max acc (entrySum x)))

lemma foldl_max_le_mem (l : List (Nat × Region)) :
    ∀ acc : Nat, ∀ p ∈ l, entrySum p ≤ l.foldl (fun t i => max t (entrySum i)) acc := by
  induction l with
  | nil => intro acc p hp; cases hp
  | cons x rest ih =>
    intro acc p hp
    rcases List.mem_cons.mp hp with h | h
    · subst h
      exact le_trans (Nat.le_max_right acc (entrySum p)) (foldl_max_le_start rest _)
    · exact ih _ p h

lemma foldl_max_attained (l : List (Nat × Region)) :
    ∀ acc : Nat, l.foldl (fun t i => max t (entrySum i)) acc = acc ∨
      ∃ p ∈ l, l.foldl (fun t i => max t (entrySum i)) acc = entrySum p := by
  induction l with
  | nil => intro acc; exact Or.inl rfl
  | cons x rest ih =>
    intro acc
    rcases ih (max acc (entrySum x)) with h | ⟨p, hp, h⟩
    · rcases max_choice acc (entrySum x) with hm | hm
      · exact Or.inl (by rw [List.foldl_cons, h, hm])
      · exact Or.inr ⟨x, List.mem_cons_self x rest, by rw [List.foldl_cons, h, hm]⟩
    · exact Or.inr ⟨p, List.mem_cons_of_mem x hp, by rw [List.foldl_cons, h]⟩

/-! ## Theorems for the claims (first batch) -/

/-- C2: the computed total arena size is the maximum over all plan entries of
`offset + size` (as `uint64_t` sums — the hypothesis rules out 64-bit
overflow), and it is 0 for the empty plan: the empty fold gives 0, every
entry's `offset + size` is bounded by the result, and the result is 0 or is
attained by some entry. -/
theorem getTotalAllocationSize_is_max (allocations : List (Nat × Region))
    (hnof : ∀ p ∈ allocations, p.2.offset + p.2.size < U64) :
    getTotalAllocationSize ([] : List (Nat × Region)) = 0 ∧
    (∀ p ∈ allocations, p.2.offset + p.2.size ≤ getTotalAllocationSize allocations) ∧
    (getTotalAllocationSize allocations = 0 ∨
      ∃ p ∈ allocations, getTotalAllocationSize allocations = p.2.offset + p.2.size) := by
  refine ⟨rfl, ?_, ?_⟩
  · intro p hp
    have h := foldl_max_le_mem allocations 0 p hp
    rw [getTotalAllocationSize_eq_foldl]
    calc p.2.offset + p.2.size = entrySum p := (Nat.mod_eq_of_lt (hnof p hp)).symm
    _ ≤ _ := h
  · rw [getTotalAllocationSize_eq_foldl]
    rcases foldl_max_attained allocations 0 with h | ⟨p, hp, h⟩
    · exact Or.inl h
    · exact Or.inr ⟨p, hp, by rw [h, entrySum, Nat.mod_eq_of_lt (hnof p hp)]⟩

/-- Witness for C2 at a concrete two-entry plan. -/
theorem getTotalAllocationSize_is_max_witness :
    (∀ p ∈ [(1, Region.mk 0 8), (2, Region.mk 8 4)], p.2.offset + p.2.size < U64) ∧
    (∀ p ∈ [(1, Region.mk 0 8), (2, Region.mk 8 4)],
      p.2.offset + p.2.size ≤ getTotalAllocationSize [(1, Region.mk 0 8), (2, Region.mk 8 4)]) ∧
    (getTotalAllocationSize [(1, Region.mk 0 8), (2, Region.mk 8 4)] = 0 ∨
      ∃ p ∈ [(1, Region.mk 0 8), (2, Region.mk 8 4)],
        getTotalAllocationSize [(1, Region.mk 0 8), (2, Region.mk 8 4)] =
          p.2.offset + p.2.size) := by
  have hn : ∀ p ∈ [(1, Region.mk 0 8), (2, Region.mk 8 4)],
      p.2.offset + p.2.size < U64 := by decide
  have h := getTotalAllocationSize_is_max [(1, Region.mk 0 8), (2, Region.mk 8 4)] hn
  exact ⟨hn, h.2.1, h.2.2⟩

/-- C4: with the NAIVE strategy, and with any selector outside the known set
(the `default:` branch of the C++ switch, modelled by `UNKNOWN`),
`planMemory` returns the graph unchanged without raising an error: no
arena-allocation node and no binding node is inserted. -/
theorem planMemory_no_planning (E : ExtEnv) (g : MGraph) :
    planMemory E g Strategy.NAIVE = Except.ok g ∧
    planMemory E g Strategy.UNKNOWN = Except.ok g :=
  ⟨rfl, rfl⟩

/-- C7: when the reported strides are absent, empty, or start with 0, the
computed strides are the row-major default strides of the computed extents;
otherwise they are the reported strides unchanged. -/
theorem getSizesStrides_strides_spec (ttp : TensorTy) :
    (ttp.cstrides = none →
      (getSizesStrides ttp).2 = defaultStrides (getSizesStrides ttp).1) ∧
    (ttp.cstrides = some [] →
      (getSizesStrides ttp).2 = defaultStrides (getSizesStrides ttp).1) ∧
    (∀ rest, ttp.cstrides = some (0 :: rest) →
      (getSizesStrides ttp).2 = defaultStrides (getSizesStrides ttp).1) ∧
    (∀ s0 rest, ttp.cstrides = some (s0 :: rest) → s0 ≠ 0 →
      (getSizesStrides ttp).2 = s0 :: rest) := by
  obtain ⟨st, cs, cst⟩ := ttp
  refine ⟨?_, ?_, ?_, ?_⟩
  · intro h
    simp only at h
    subst h
    simp [getSizesStrides]
  · intro h
    simp only at h
    subst h
    simp [getSizesStrides]
  · intro rest h
    simp only at h
    subst h
    simp [getSizesStrides]
  · intro s0 rest h h0
    simp only at h
    subst h
    simp [getSizesStrides, h0]

/-- Witness for C7: a degenerate (absent) strides report and a
non-degenerate one. -/
theorem getSizesStrides_strides_spec_witness :
    (getSizesStrides (TensorTy.mk (some 6) (some [2, 3]) none)).2 =
      defaultStrides (getSizesStrides (TensorTy.mk (some 6) (some [2, 3]) none)).1 ∧
    (getSizesStrides (TensorTy.mk (some 6) (some [2, 3]) (some [3, 1]))).2 = [3, 1] :=
  ⟨(getSizesStrides_strides_spec (TensorTy.mk (some 6) (some [2, 3]) none)).1 rfl,
   (getSizesStrides_strides_spec
      (TensorTy.mk (some 6) (some [2, 3]) (some [3, 1]))).2.2.2 3 [1] rfl (by decide)⟩

/-- Unfolding lemma for `processOutputs` on a cons cell. -/
lemma processOutputs_cons (elemSize : Nat → Nat) (aa : List Nat) (w : Nat)
    (ty : VType) (rest : List (Nat × VType)) :
    processOutputs elemSize aa ((w, ty) :: rest) =
      if aa.contains w then processOutputs elemSize aa rest
      else
        match computeStorageSize elemSize ty with
        | some s =>
          if 0 < s then
            ((w, s) :: (processOutputs elemSize aa rest).1,
              (processOutputs elemSize aa rest).2)
          else
            ((processOutputs elemSize aa rest).1,
              w :: (processOutputs elemSize aa rest).2)
        | none =>
          ((processOutputs elemSize aa rest).1,
            w :: (processOutputs elemSize aa rest).2) := rfl

lemma processOutputs_cons_skip (elemSize : Nat → Nat) (aa : List Nat) (w : Nat)
    (ty : VType) (rest : List (Nat × VType)) (h : aa.contains w = true) :
    processOutputs elemSize aa ((w, ty) :: rest) = processOutputs elemSize aa rest := by
  rw [processOutputs_cons, if_pos h]

lemma processOutputs_cons_managed (elemSize : Nat → Nat) (aa : List Nat) (w : Nat)
    (ty : VType) (rest : List (Nat × VType)) (s : Nat) (h : aa.contains w = false)
    (hcs : computeStorageSize elemSize ty = some s) (hpos : 0 < s) :
    processOutputs elemSize aa ((w, ty) :: rest) =
      ((w, s) :: (processOutputs elemSize aa rest).1,
        (processOutputs elemSize aa rest).2) := by
  rw [processOutputs_cons, if_neg (fun hc => by rw [h] at hc; cases hc), hcs]
  simp [hpos]

lemma processOutputs_cons_leak_none (elemSize : Nat → Nat) (aa : List Nat) (w : Nat)
    (ty : VType) (rest : List (Nat × VType)) (h : aa.contains w = false)
    (hcs : computeStorageSize elemSize ty = none) :
    processOutputs elemSize aa ((w, ty) :: rest) =
      ((processOutputs elemSize aa rest).1,
        w :: (processOutputs elemSize aa rest).2) := by
  rw [processOutputs_cons, if_neg (fun hc => by rw [h] at hc; cases hc), hcs]

lemma processOutputs_cons_leak_zero (elemSize : Nat → Nat) (aa : List Nat) (w : Nat)
    (ty : VType) (rest : List (Nat × VType)) (h : aa.contains w = false)
    (hcs : computeStorageSize elemSize ty = some 0) :
    processOutputs elemSize aa ((w, ty) :: rest) =
      ((processOutputs elemSize aa rest).1,
        w :: (processOutputs elemSize aa rest).2) := by
  rw [processOutputs_cons, if_neg (fun hc => by rw [h] at hc; cases hc), hcs]
  simp

/-- Unfolding lemma for `getManagedValuesFull` on a cons cell. -/
lemma getManagedValuesFull_cons (reg : String → List (List String))
    (elemSize : Nat → Nat) (aa : List Nat) (node : MNode) (rest : List MNode) :
    getManagedValuesFull reg elemSize aa (node :: rest) =
      if hasOutVariant reg node then
        (node :: (getManagedValuesFull reg elemSize aa rest).1,
          (processOutputs elemSize aa node.outputs).1 ++
            (getManagedValuesFull reg elemSize aa rest).2.1,
          (processOutputs elemSize aa node.outputs).2 ++
            (getManagedValuesFull reg elemSize aa rest).2.2)
      else getManagedValuesFull reg elemSize aa rest := rfl

/-- C10: a node has an out variant exactly when some registered overload for
its kind has an argument named `"out"`; a node without one contributes
nothing to the collector (dropping it from the node list leaves the out
nodes, the managed values, and the leaked values unchanged). -/
theorem hasOutVariant_spec (reg : String → List (List String)) (elemSize : Nat → Nat)
    (node : MNode) :
    (hasOutVariant reg node = true ↔
      ∃ variant_args ∈ reg node.kind, "out" ∈ variant_args) ∧
    (hasOutVariant reg node = false →
      ∀ l1 l2 aa, getManagedValuesFull reg elemSize aa (l1 ++ node :: l2) =
        getManagedValuesFull reg elemSize aa (l1 ++ l2)) := by
  constructor
  · simp only [hasOutVariant, List.any_eq_true, beq_iff_eq]
    constructor
    · rintro ⟨va, hva, arg, harg, rfl⟩
      exact ⟨va, hva, harg⟩
    · rintro ⟨va, hva, harg⟩
      exact ⟨va, hva, "out", harg, rfl⟩
  · intro h l1 l2 aa
    induction l1 with
    | nil =>
      rw [List.nil_append, List.nil_append, getManagedValuesFull_cons,
        if_neg (by simp [h])]
    | cons x rest ih =>
      simp only [List.cons_append, getManagedValuesFull_cons, ih]

/-- Witness for C10 at a concrete registry without an `"out"` argument. -/
theorem hasOutVariant_spec_witness :
    getManagedValuesFull (fun _ => [["self", "other"]]) (fun _ => 4) []
      [MNode.mk 0 "aten::add" [] [] {}, MNode.mk 1 "aten::mul" [] [] {}] =
    getManagedValuesFull (fun _ => [["self", "other"]]) (fun _ => 4) []
      [MNode.mk 1 "aten::mul" [] [] {}] :=
  (hasOutVariant_spec (fun _ => [["self", "other"]]) (fun _ => 4)
      (MNode.mk 0 "aten::add" [] [] {})).2 (by decide) [] [MNode.mk 1 "aten::mul" [] [] {}] []

/-! ## Membership characterization of the collector -/

lemma mem_processOutputs (elemSize : Nat → Nat) (aa : List Nat)
    (outs : List (Nat × VType)) (v : Nat) :
    (∀ s, ((v, s) ∈ (processOutputs elemSize aa outs).1 ↔
      ∃ ty, (v, ty) ∈ outs ∧ aa.contains v = false ∧
        computeStorageSize elemSize ty = some s ∧ 0 < s)) ∧
    (v ∈ (processOutputs elemSize aa outs).2 ↔
      ∃ ty, (v, ty) ∈ outs ∧ aa.contains v = false ∧
        (computeStorageSize elemSize ty = none ∨
          computeStorageSize elemSize ty = some 0)) := by
  induction outs with
  | nil => simp [processOutputs]
  | cons e rest ih =>
    obtain ⟨w, ty⟩ := e
    by_cases hw : aa.contains w
    · have hskip : processOutputs elemSize aa ((w, ty) :: rest) =
          processOutputs elemSize aa rest := by
        rw [processOutputs_cons, if_pos hw]
      constructor
      · intro s
        rw [hskip]
        rw [(ih.1 s)]
        constructor
        · rintro ⟨ty', hmem, hcv, hcs, hpos⟩
          exact ⟨ty', List.mem_cons_of_mem _ hmem, hcv, hcs, hpos⟩
        · rintro ⟨ty', hmem, hcv, hcs, hpos⟩
          rcases List.mem_cons.mp hmem with heq | hmem'
          · exfalso
            have : v = w := congrArg Prod.fst heq
            rw [this] at hcv
            rw [hw] at hcv
            cases hcv
          · exact ⟨ty', hmem', hcv, hcs, hpos⟩
      · rw [hskip]
        rw [ih.2]
        constructor
        · rintro ⟨ty', hmem, hcv, hcs⟩
          exact ⟨ty', List.mem_cons_of_mem _ hmem, hcv, hcs⟩
        · rintro ⟨ty', hmem, hcv, hcs⟩
          rcases List.mem_cons.mp hmem with heq | hmem'
          · exfalso
            have : v = w := congrArg Prod.fst heq
            rw [this] at hcv
            rw [hw] at hcv
            cases hcv
          · exact ⟨ty', hmem', hcv, hcs⟩
    · have hw' : aa.contains w = false := by
        cases hx : aa.contains w
        · rfl
        · exact absurd hx hw
      rcases hcs : computeStorageSize elemSize ty with _ | s0
      · -- no size: leaked
        have hred := processOutputs_cons_leak_none elemSize aa w ty rest hw' hcs
        rw [hred]
        constructor
        · intro s
          rw [ih.1 s]
          constructor
          · rintro ⟨ty', hmem, hcv, hcs', hpos⟩
            exact ⟨ty', List.mem_cons_of_mem _ hmem, hcv, hcs', hpos⟩
          · rintro ⟨ty', hmem, hcv, hcs', hpos⟩
            rcases List.mem_cons.mp hmem with heq | hmem'
            · exfalso
              have hv : v = w := congrArg Prod.fst heq
              have hty : ty' = ty := congrArg Prod.snd heq
              rw [hty, hcs] at hcs'
              cases hcs'
            · exact ⟨ty', hmem', hcv, hcs', hpos⟩
        · simp only [List.mem_cons]
          rw [ih.2]
          constructor
          · rintro (rfl | ⟨ty', hmem, hcv, hcs'⟩)
            · exact ⟨ty, Or.inl rfl, hw', Or.inl hcs⟩
            · exact ⟨ty', Or.inr hmem, hcv, hcs'⟩
          · rintro ⟨ty', hmem, hcv, hcs'⟩
            rcases hmem with heq | hmem'
            · exact Or.inl (congrArg Prod.fst heq)
            · exact Or.inr ⟨ty', hmem', hcv, hcs'⟩
      · by_cases hpos : 0 < s0
        · -- managed
          have hred := processOutputs_cons_managed elemSize aa w ty rest s0 hw' hcs hpos
          rw [hred]
          constructor
          · intro s
            simp only [List.mem_cons]
            rw [ih.1 s]
            constructor
            · rintro (heq | ⟨ty', hmem, hcv, hcs', hpos'⟩)
              · have hv : v = w := congrArg Prod.fst heq
                have hs : s = s0 := congrArg Prod.snd heq
                subst hv; subst hs
                exact ⟨ty, Or.inl rfl, hw', hcs, hpos⟩
              · exact ⟨ty', Or.inr hmem, hcv, hcs', hpos'⟩
            · rintro ⟨ty', hmem, hcv, hcs', hpos'⟩
              rcases hmem with heq | hmem'
              · have hv : v = w := congrArg Prod.fst heq
                have hty : ty' = ty := congrArg Prod.snd heq
                subst hv; subst hty
                rw [hcs] at hcs'
                exact Or.inl (by rw [Option.some_inj.mp hcs'])
              · exact Or.inr ⟨ty', hmem', hcv, hcs', hpos'⟩
          · rw [ih.2]
            constructor
            · rintro ⟨ty', hmem, hcv, hcs'⟩
              exact ⟨ty', List.mem_cons_of_mem _ hmem, hcv, hcs'⟩
            · rintro ⟨ty', hmem, hcv, hcs'⟩
              rcases List.mem_cons.mp hmem with heq | hmem'
              · exfalso
                have hty : ty' = ty := congrArg Prod.snd heq
                subst hty
                rw [hcs] at hcs'
                rcases hcs' with h0 | h0
                · cases h0
                · rw [Option.some_inj.mp h0] at hpos
                  cases hpos
              · exact ⟨ty', hmem', hcv, hcs'⟩
        · -- size 0: leaked
          have hs0 : s0 = 0 := Nat.eq_zero_of_not_pos hpos
          subst hs0
          have hred := processOutputs_cons_leak_zero elemSize aa w ty rest hw' hcs
          rw [hred]
          constructor
          · intro s
            rw [ih.1 s]
            constructor
            · rintro ⟨ty', hmem, hcv, hcs', hpos'⟩
              exact ⟨ty', List.mem_cons_of_mem _ hmem, hcv, hcs', hpos'⟩
            · rintro ⟨ty', hmem, hcv, hcs', hpos'⟩
              rcases List.mem_cons.mp hmem with heq | hmem'
              · exfalso
                have hty : ty' = ty := congrArg Prod.snd heq
                subst hty
                rw [hcs] at hcs'
                have h0s := Option.some_inj.mp hcs'
                omega
              · exact ⟨ty', hmem', hcv, hcs', hpos'⟩
          · simp only [List.mem_cons]
            rw [ih.2]
            constructor
            · rintro (rfl | ⟨ty', hmem, hcv, hcs'⟩)
              · exact ⟨ty, Or.inl rfl, hw', Or.inr hcs⟩
              · exact ⟨ty', Or.inr hmem, hcv, hcs'⟩
            · rintro ⟨ty', hmem, hcv, hcs'⟩
              rcases hmem with heq | hmem'
              · exact Or.inl (congrArg Prod.fst heq)
              · exact Or.inr ⟨ty', hmem', hcv, hcs'⟩

lemma mem_getManagedValuesFull (reg : String → List (List String))
    (elemSize : Nat → Nat) (aa : List Nat) (nodes : List MNode) (v : Nat) :
    (∀ s, ((v, s) ∈ (getManagedValuesFull reg elemSize aa nodes).2.1 ↔
      ∃ node ∈ nodes, hasOutVariant reg node = true ∧
        ∃ ty, (v, ty) ∈ node.outputs ∧ aa.contains v = false ∧
          computeStorageSize elemSize ty = some s ∧ 0 < s)) ∧
    (v ∈ (getManagedValuesFull reg elemSize aa nodes).2.2 ↔
      ∃ node ∈ nodes, hasOutVariant reg node = true ∧
        ∃ ty, (v, ty) ∈ node.outputs ∧ aa.contains v = false ∧
          (computeStorageSize elemSize ty = none ∨
            computeStorageSize elemSize ty = some 0)) := by
  induction nodes with
  | nil => simp [getManagedValuesFull]
  | cons node rest ih =>
    by_cases hov : hasOutVariant reg node
    · have hred : getManagedValuesFull reg elemSize aa (node :: rest) =
          (node :: (getManagedValuesFull reg elemSize aa rest).1,
            (processOutputs elemSize aa node.outputs).1 ++
              (getManagedValuesFull reg elemSize aa rest).2.1,
            (processOutputs elemSize aa node.outputs).2 ++
              (getManagedValuesFull reg elemSize aa rest).2.2) := by
        rw [getManagedValuesFull_cons, if_pos hov]
      rw [hred]
      constructor
      · intro s
        simp only [List.mem_append, List.mem_cons]
        rw [ih.1 s, (mem_processOutputs elemSize aa node.outputs v).1 s]
        constructor
        · rintro (⟨ty, hmem, hcv, hcs, hpos⟩ | ⟨nd, hnd, hnov, hrest⟩)
          · exact ⟨node, Or.inl rfl, hov, ty, hmem, hcv, hcs, hpos⟩
          · exact ⟨nd, Or.inr hnd, hnov, hrest⟩
        · rintro ⟨nd, hnd, hnov, hrest⟩
          rcases hnd with rfl | hnd'
          · exact Or.inl hrest
          · exact Or.inr ⟨nd, hnd', hnov, hrest⟩
      · simp only [List.mem_append, List.mem_cons]
        rw [ih.2, (mem_processOutputs elemSize aa node.outputs v).2]
        constructor
        · rintro (⟨ty, hmem, hcv, hcs⟩ | ⟨nd, hnd, hnov, hrest⟩)
          · exact ⟨node, Or.inl rfl, hov, ty, hmem, hcv, hcs⟩
          · exact ⟨nd, Or.inr hnd, hnov, hrest⟩
        · rintro ⟨nd, hnd, hnov, hrest⟩
          rcases hnd with rfl | hnd'
          · exact Or.inl hrest
          · exact Or.inr ⟨nd, hnd', hnov, hrest⟩
    · have hov' : hasOutVariant reg node = false := by
        cases hx : hasOutVariant reg node
        · rfl
        · exact absurd hx hov
      have hred : getManagedValuesFull reg elemSize aa (node :: rest) =
          getManagedValuesFull reg elemSize aa rest := by
        rw [getManagedValuesFull_cons, if_neg (by simp [hov'])]
      rw [hred]
      constructor
      · intro s
        rw [ih.1 s]
        constructor
        · rintro ⟨nd, hnd, hnov, hrest⟩
          exact ⟨nd, List.mem_cons_of_mem _ hnd, hnov, hrest⟩
        · rintro ⟨nd, hnd, hnov, hrest⟩
          rcases List.mem_cons.mp hnd with rfl | hnd'
          · rw [hov'] at hnov; cases hnov
          · exact ⟨nd, hnd', hnov, hrest⟩
      · rw [ih.2]
        constructor
        · rintro ⟨nd, hnd, hnov, hrest⟩
          exact ⟨nd, List.mem_cons_of_mem _ hnd, hnov, hrest⟩
        · rintro ⟨nd, hnd, hnov, hrest⟩
          rcases List.mem_cons.mp hnd with rfl | hnd'
          · rw [hov'] at hnov; cases hnov
          · exact ⟨nd, hnd', hnov, hrest⟩

/-- C3: a candidate output value (an output of a node with an out variant,
not pinned always-alive) is in the managed set exactly when its byte size is
defined and strictly positive; when the size is undefined (not a tensor, no
scalar type, no concrete sizes, no element count) or 0, the value lands in
the leaked set instead, and collection has gone on over all remaining
values (the characterizations hold for every value in the list). -/
theorem collector_excludes_unsized (reg : String → List (List String))
    (elemSize : Nat → Nat) (aa : List Nat) (nodes : List MNode) (v : Nat) :
    (∀ s, ((v, s) ∈ (getManagedValues reg elemSize nodes aa).2 ↔
      ∃ node ∈ nodes, hasOutVariant reg node = true ∧
        ∃ ty, (v, ty) ∈ node.outputs ∧ aa.contains v = false ∧
          computeStorageSize elemSize ty = some s ∧ 0 < s)) ∧
    (v ∈ (getManagedValuesFull reg elemSize aa nodes).2.2 ↔
      ∃ node ∈ nodes, hasOutVariant reg node = true ∧
        ∃ ty, (v, ty) ∈ node.outputs ∧ aa.contains v = false ∧
          (computeStorageSize elemSize ty = none ∨
            computeStorageSize elemSize ty = some 0)) :=
  mem_getManagedValuesFull reg elemSize aa nodes v

/-- C3 has no hypothesis, but the following concrete evaluation is kept as a
sanity check of the collector on a graph with one sized, one zero-sized and
one untyped output. -/
theorem collector_excludes_unsized_example :
    getManagedValues (fun _ => [["self", "out"]]) (fun _ => 4)
      [MNode.mk 0 "aten::add" []
        [(1, VType.tensor (TensorTy.mk (some 6) (some [2, 3]) (some [3, 1]))),
         (2, VType.tensor (TensorTy.mk (some 6) (some [0]) (some [1]))),
         (3, VType.other)] {}] [] =
    ([MNode.mk 0 "aten::add" []
        [(1, VType.tensor (TensorTy.mk (some 6) (some [2, 3]) (some [3, 1]))),
         (2, VType.tensor (TensorTy.mk (some 6) (some [0]) (some [1]))),
         (3, VType.other)] {}], [(1, 24)]) := by
  decide

/-! ## C8: always-alive values are excluded -/

/-- C8: a value pinned always-alive by the liveness analyzer is excluded
from the managed set and from the managed live ranges — the two inputs every
packing strategy receives — and, for any plan-producing function satisfying
the spec's coverage contract (plan keys are input keys), the value never
receives a Region. -/
theorem always_alive_excluded (E : ExtEnv) (g : MGraph) (v : Nat)
    (hv : (E.alwaysAlive g).contains v = true) :
    (∀ s, (v, s) ∉ (getManagedStuff E g).2.1) ∧
    (∀ lr, (v, lr) ∉ (getManagedStuff E g).2.2) ∧
    (∀ f : List (Nat × Nat) → List (Nat × LiveRange) → List (Nat × Region),
      (∀ p ∈ f (getManagedStuff E g).2.1 (getManagedStuff E g).2.2,
          p.1 ∈ (getManagedStuff E g).2.1.map Prod.fst) →
      ∀ r : Region, (v, r) ∉ f (getManagedStuff E g).2.1 (getManagedStuff E g).2.2) := by
  have key : ∀ s, (v, s) ∉
      (getManagedValuesFull E.registry E.elemSize (E.alwaysAlive g) g.nodes).2.1 := by
    intro s hmem
    obtain ⟨nd, hnd, hov, ty, hty, hcv, _⟩ :=
      ((mem_getManagedValuesFull E.registry E.elemSize (E.alwaysAlive g) g.nodes v).1 s).mp
        hmem
    rw [hv] at hcv
    cases hcv
  have hfst : ∀ w, w ∈ (getManagedStuff E g).2.1.map Prod.fst → w ≠ v := by
    intro w hw
    obtain ⟨p, hp, hpe⟩ := List.mem_map.mp hw
    obtain ⟨p1, p2⟩ := p
    intro hez
    rw [hez] at hpe
    cases hpe
    exact key p2 hp
  refine ⟨?_, ?_, ?_⟩
  · intro s hmem
    exact key s hmem
  · intro lr hmem
    have h2 := List.mem_filter.mp hmem
    have h3 : (v, lr).1 ∈ (getManagedStuff E g).2.1.map Prod.fst := by
      simpa using h2.2
    exact hfst v h3 rfl
  · intro f hcov r hmem
    exact hfst v (hcov (v, r) hmem) rfl

/-- Concrete environment for the C8 witness: value 7 is pinned always
alive. -/
def E8 : ExtEnv where
  pickDevice := fun _ => none
  alwaysAlive := fun _ => [7]
  liveness := fun _ _ => [(7, LiveRange.mk 0 1), (8, LiveRange.mk 0 2)]
  registry := fun _ => [["self", "out"]]
  elemSize := fun _ => 4
  greedyBySize := fun m _ => m.map fun p => (p.1, Region.mk 0 p.2)
  linearScanHeuristic := fun m _ => m.map fun p => (p.1, Region.mk 0 p.2)
  greedyByOperatorBreadth := fun m _ _ => m.map fun p => (p.1, Region.mk 0 p.2)

/-- Concrete graph for the C8 witness: one out-variant node producing the
pinned value 7 and the plannable value 8. -/
def g8 : MGraph where
  nodes := [MNode.mk 0 "aten::add" [1, 2]
    [(7, VType.tensor (TensorTy.mk (some 6) (some [2]) (some [1]))),
     (8, VType.tensor (TensorTy.mk (some 6) (some [2]) (some [1])))] {}]
  nextNid := 1
  nextVid := 9

/-- Witness for C8: the pinned value 7 is not in the managed set of `g8`. -/
theorem always_alive_excluded_witness : (7, 8) ∉ (getManagedStuff E8 g8).2.1 :=
  (always_alive_excluded E8 g8 7 (by decide)).1 8

/-! ## C9: order-invariance (determinism) -/

lemma contains_perm_eq (l1 l2 : List Nat) (h : l1.Perm l2) (v : Nat) :
    l1.contains v = l2.contains v := by
  by_cases hm : v ∈ l1
  · have h2 : v ∈ l2 := h.mem_iff.mp hm
    simp [hm, h2]
  · have h2 : v ∉ l2 := fun hc => hm (h.mem_iff.mpr hc)
    simp [hm, h2]

lemma processOutputs_contains_congr (elemSize : Nat → Nat) (aa1 aa2 : List Nat)
    (hc : ∀ v, aa1.contains v = aa2.contains v) (outs : List (Nat × VType)) :
    processOutputs elemSize aa1 outs = processOutputs elemSize aa2 outs := by
  induction outs with
  | nil => rfl
  | cons e rest ih =>
    obtain ⟨w, ty⟩ := e
    rw [processOutputs_cons, processOutputs_cons, hc w, ih]

lemma getManagedValuesFull_contains_congr (reg : String → List (List String))
    (elemSize : Nat → Nat) (aa1 aa2 : List Nat)
    (hc : ∀ v, aa1.contains v = aa2.contains v) (nodes : List MNode) :
    getManagedValuesFull reg elemSize aa1 nodes =
      getManagedValuesFull reg elemSize aa2 nodes := by
  induction nodes with
  | nil => rfl
  | cons node rest ih =>
    rw [getManagedValuesFull_cons, getManagedValuesFull_cons, ih,
      processOutputs_contains_congr elemSize aa1 aa2 hc]

lemma foldl_max_perm (l1 l2 : List (Nat × Region)) (h : l1.Perm l2) :
    ∀ acc : Nat, l1.foldl (fun t i => max t (entrySum i)) acc =
      l2.foldl (fun t i => max t (entrySum i)) acc := by
  induction h with
  | nil => intro acc; rfl
  | cons x _ ih =>
    intro acc
    simp only [List.foldl_cons]
    exact ih _
  | swap x y l =>
    intro acc
    simp only [List.foldl_cons]
    rw [max_assoc, max_comm (entrySum y) (entrySum x), ← max_assoc]
  | trans _ _ ih1 ih2 =>
    intro acc
    exact (ih1 acc).trans (ih2 acc)

/-- C9: determinism.  Every pipeline stage of this embedding is a pure
function of its inputs, so two invocations on identical inputs are literally
the same term; what remains to check is that the result does not depend on
the iteration order of the unordered containers the source walks.  The
always-alive set enters the collector only through membership, so any
permutation of it yields the same collector output; and the total arena
size, the one quantity folded from an unordered map of the plan, is
invariant under any permutation of the plan entries. -/
theorem plan_determinism (reg : String → List (List String)) (elemSize : Nat → Nat)
    (nodes : List MNode) (aa1 aa2 : List Nat) (l1 l2 : List (Nat × Region))
    (hp : aa1.Perm aa2) (hq : l1.Perm l2) :
    getManagedValuesFull reg elemSize aa1 nodes =
      getManagedValuesFull reg elemSize aa2 nodes ∧
    getTotalAllocationSize l1 = getTotalAllocationSize l2 := by
  constructor
  · exact getManagedValuesFull_contains_congr reg elemSize aa1 aa2
      (contains_perm_eq aa1 aa2 hp) nodes
  · rw [getTotalAllocationSize_eq_foldl, getTotalAllocationSize_eq_foldl,
      foldl_max_perm l1 l2 hq 0]

/-- Witness for C9 at concrete permuted inputs. -/
theorem plan_determinism_witness :
    getManagedValuesFull (fun _ => [["out"]]) (fun _ => 4) [1, 2] g8.nodes =
      getManagedValuesFull (fun _ => [["out"]]) (fun _ => 4) [2, 1] g8.nodes ∧
    getTotalAllocationSize [(1, Region.mk 0 8), (2, Region.mk 8 4)] =
      getTotalAllocationSize [(2, Region.mk 8 4), (1, Region.mk 0 8)] :=
  plan_determinism (fun _ => [["out"]]) (fun _ => 4) g8.nodes [1, 2] [2, 1]
    [(1, Region.mk 0 8), (2, Region.mk 8 4)] [(2, Region.mk 8 4), (1, Region.mk 0 8)]
    (List.Perm.swap 2 1 []) (List.Perm.swap (2, Region.mk 8 4) (1, Region.mk 0 8) [])

/-! ## C1: the invariant check aborts, but not before rewriting -/

/-- Unfolding lemma for `insertAllocTensorNodes` on a cons cell. -/
lemma insertAllocTensorNodes_cons (storage : MNode) (g : MGraph)
    (item : Nat × Region) (rest : List (Nat × Region)) :
    insertAllocTensorNodes storage g (item :: rest) =
      match allocTensorStep storage g item with
      | .ok g2 => insertAllocTensorNodes storage g2 rest
      | .error e => .error e := rfl

/-- A step whose Region exceeds the declared total size always aborts. -/
lemma allocTensorStep_viol (storage : MNode) (g : MGraph) (item : Nat × Region)
    (hb : ¬ ((item.2.offset + item.2.size) % U64 ≤ storage.attrs.total_size.getD 0)) :
    isErr (allocTensorStep storage g item) = true := by
  simp only [allocTensorStep]
  split
  · rfl
  · split
    · rw [if_neg hb]
      rfl
    · rfl

/-- A concrete tensor type for the C1 scenario. -/
def tyC1 : TensorTy := TensorTy.mk (some 6) (some [2, 3]) (some [3, 1])

/-- A concrete out-variant node producing value 7 with two inputs. -/
def nodeC1 : MNode := MNode.mk 0 "aten::add" [5, 6] [(7, VType.tensor tyC1)] {}

/-- The pre-application graph of the C1 scenario. -/
def gC1 : MGraph := MGraph.mk [nodeC1] 1 8

/-- The arena-allocation node of the C1 scenario, declaring total size 10. -/
def storageC1 : MNode := (insertAllocStorageNode E8 gC1 10).1

/-- The graph right after the arena-allocation node was inserted. -/
def gC1s : MGraph := (insertAllocStorageNode E8 gC1 10).2

/-- The deliberately corrupted plan: 24 bytes at offset 0 against a declared
total of 10. -/
def planC1 : List (Nat × Region) := [(7, Region.mk 0 24)]

/-- C1 counterexample: on the corrupted plan the applier does abort with the
invariant-check message, but the graph carried at the abort is not the graph
it started from: one binding directive (`prim::AllocateTensor`) has already
been inserted and the producing node has already been rewired (its inputs
grew from `[5, 6]` to `[5, 6, 9]`), while the arena-allocation directive
already sits at the head.  This refutes the claim that when the check fires
no rewriting directive has been emitted and the graph is unchanged. -/
theorem applier_abort_after_rewrite :
    errMsg (insertAllocTensorNodes storageC1 gC1s planC1) =
      some "trying to create an allocation that exceeds previously planned memory" ∧
    resGraph (insertAllocTensorNodes storageC1 gC1s planC1) ≠ gC1s ∧
    countKind (resGraph (insertAllocTensorNodes storageC1 gC1s planC1)).nodes
      allocTensorKind = 1 ∧
    (resGraph (insertAllocTensorNodes storageC1 gC1s planC1)).nodes.map MNode.inputs =
      [[], [8], [5, 6, 9]] ∧
    (resGraph (insertAllocTensorNodes storageC1 gC1s planC1)).nodes.map MNode.kind =
      [allocStorageKind, allocTensorKind, "aten::add"] := by
  decide

/-- C1 (amended): whenever some binding's Region has `offset + size` (as a
`uint64_t` sum) exceeding the declared total arena size, plan application
aborts fatally: `insertAllocTensorNodes` never returns a success graph.
(The abort is however not before all rewriting — see the counterexample.) -/
theorem insertAllocTensorNodes_aborts (storage : MNode) (g : MGraph)
    (plan : List (Nat × Region))
    (hviol : ∃ p ∈ plan,
      ¬ ((p.2.offset + p.2.size) % U64 ≤ storage.attrs.total_size.getD 0)) :
    isErr (insertAllocTensorNodes storage g plan) = true := by
  induction plan generalizing g with
  | nil =>
    obtain ⟨p, hp, _⟩ := hviol
    cases hp
  | cons item rest ih =>
    obtain ⟨p, hp, hv⟩ := hviol
    rw [insertAllocTensorNodes_cons]
    rcases List.mem_cons.mp hp with rfl | hp'
    · have hstep := allocTensorStep_viol storage g p hv
      cases hse : allocTensorStep storage g p with
      | error e => rfl
      | ok g2 => rw [hse] at hstep; cases hstep
    · cases hse : allocTensorStep storage g item with
      | error e => rfl
      | ok g2 => exact ih g2 ⟨p, hp', hv⟩

/-- Witness for the amended C1 theorem at the concrete corrupted plan. -/
theorem insertAllocTensorNodes_aborts_witness :
    isErr (insertAllocTensorNodes storageC1 gC1s planC1) = true :=
  insertAllocTensorNodes_aborts storageC1 gC1s planC1
    ⟨(7, Region.mk 0 24), by decide, by decide⟩

/-! ## List-surgery lemmas shared by the applier theorems -/

lemma countKind_cons (n : MNode) (l : List MNode) (k : String) :
    countKind (n :: l) k = (if n.kind == k then 1 else 0) + countKind l k := by
  by_cases hk : n.kind == k
  · simp [countKind, List.filter_cons, hk, Nat.add_comm]
  · have hk' : (n.kind == k) = false := by
      cases hx : n.kind == k
      · rfl
      · exact absurd hx hk
    simp [countKind, List.filter_cons, hk']

lemma countKind_map (l : List MNode) (f : MNode → MNode)
    (hf : ∀ n, (f n).kind = n.kind) (k : String) :
    countKind (l.map f) k = countKind l k := by
  induction l with
  | nil => rfl
  | cons n rest ih =>
    rw [List.map_cons, countKind_cons, countKind_cons, ih, hf n]

lemma countKind_addInputTo (l : List MNode) (t v : Nat) (k : String) :
    countKind (addInputTo l t v) k = countKind l k := by
  apply countKind_map
  intro n
  by_cases hc : n.nid == t
  · rw [if_pos hc]
  · rw [if_neg hc]

lemma countKind_setAttrsOn (l : List MNode) (t : Nat) (f : Attrs → Attrs) (k : String) :
    countKind (setAttrsOn l t f) k = countKind l k := by
  apply countKind_map
  intro n
  by_cases hc : n.nid == t
  · rw [if_pos hc]
  · rw [if_neg hc]

lemma countKind_insertBeforeNid (l : List MNode) (t : Nat) (nw : MNode) (k : String) :
    countKind (insertBeforeNid l t nw) k =
      (if nw.kind == k then 1 else 0) + countKind l k := by
  induction l with
  | nil => rw [show insertBeforeNid [] t nw = [nw] from rfl, countKind_cons]
  | cons n rest ih =>
    by_cases hn : n.nid == t
    · rw [show insertBeforeNid (n :: rest) t nw = nw :: n :: rest by
        rw [insertBeforeNid, if_pos hn]]
      rw [countKind_cons]
    · rw [show insertBeforeNid (n :: rest) t nw = n :: insertBeforeNid rest t nw by
        rw [insertBeforeNid, if_neg hn]]
      rw [countKind_cons, ih, countKind_cons]
      omega

lemma mem_addInputTo (l : List MNode) (t v : Nat) (n : MNode)
    (h : n ∈ addInputTo l t v) :
    ∃ m ∈ l, n.nid = m.nid ∧ n.kind = m.kind ∧ n.outputs = m.outputs := by
  obtain ⟨m, hm, heq⟩ := List.mem_map.mp h
  by_cases hc : m.nid == t
  · rw [if_pos hc] at heq
    cases heq
    exact ⟨m, hm, rfl, rfl, rfl⟩
  · rw [if_neg hc] at heq
    cases heq
    exact ⟨n, hm, rfl, rfl, rfl⟩

lemma mem_setAttrsOn (l : List MNode) (t : Nat) (f : Attrs → Attrs) (n : MNode)
    (h : n ∈ setAttrsOn l t f) :
    ∃ m ∈ l, n.nid = m.nid ∧ n.kind = m.kind ∧ n.outputs = m.outputs := by
  obtain ⟨m, hm, heq⟩ := List.mem_map.mp h
  by_cases hc : m.nid == t
  · rw [if_pos hc] at heq
    cases heq
    exact ⟨m, hm, rfl, rfl, rfl⟩
  · rw [if_neg hc] at heq
    cases heq
    exact ⟨n, hm, rfl, rfl, rfl⟩

lemma mem_insertBeforeNid (l : List MNode) (t : Nat) (nw n : MNode)
    (h : n ∈ insertBeforeNid l t nw) : n = nw ∨ n ∈ l := by
  induction l with
  | nil =>
    rcases List.mem_cons.mp h with h1 | h1
    · exact Or.inl h1
    · cases h1
  | cons m rest ih =>
    by_cases hc : m.nid == t
    · rw [show insertBeforeNid (m :: rest) t nw = nw :: m :: rest by
        rw [insertBeforeNid, if_pos hc]] at h
      rcases List.mem_cons.mp h with h1 | h1
      · exact Or.inl h1
      · exact Or.inr h1
    · rw [show insertBeforeNid (m :: rest) t nw = m :: insertBeforeNid rest t nw by
        rw [insertBeforeNid, if_neg hc]] at h
      rcases List.mem_cons.mp h with h1 | h1
      · exact Or.inr (h1 ▸ List.mem_cons_self m rest)
      · rcases ih h1 with h2 | h2
        · exact Or.inl h2
        · exact Or.inr (List.mem_cons_of_mem m h2)

lemma addInputTo_cons (n : MNode) (rest : List MNode) (t v : Nat)
    (h : (n.nid == t) = false) :
    addInputTo (n :: rest) t v = n :: addInputTo rest t v := by
  show (if n.nid == t then _ else n) :: _ = _
  rw [if_neg (by rw [h]; exact Bool.false_ne_true)]
  rfl

lemma setAttrsOn_cons (n : MNode) (rest : List MNode) (t : Nat) (f : Attrs → Attrs)
    (h : (n.nid == t) = false) :
    setAttrsOn (n :: rest) t f = n :: setAttrsOn rest t f := by
  show (if n.nid == t then _ else n) :: _ = _
  rw [if_neg (by rw [h]; exact Bool.false_ne_true)]
  rfl

lemma insertBeforeNid_cons_ne (n : MNode) (rest : List MNode) (t : Nat) (nw : MNode)
    (h : (n.nid == t) = false) :
    insertBeforeNid (n :: rest) t nw = n :: insertBeforeNid rest t nw := by
  rw [insertBeforeNid, if_neg (by rw [h]; exact Bool.false_ne_true)]

lemma beq_nat_false_of_ne {a b : Nat} (h : a ≠ b) : (a == b) = false := by
  cases hx : a == b
  · rfl
  · exact absurd (eq_of_beq hx) h

lemma setAttrsOn_id (l : List MNode) (t : Nat) :
    setAttrsOn l t (fun a => a) = l := by
  induction l with
  | nil => rfl
  | cons n rest ih =>
    show (if n.nid == t then n else n) :: setAttrsOn rest t (fun a => a) = n :: rest
    rw [ite_self, ih]

/-- Shape of the graph after `spliceAllocNode`: the head node (the storage
node, whose id differs from both the producer's and the fresh alloc id) is
preserved, tail node ids are old ids or the fresh alloc id, and exactly one
`prim::AllocateTensor` node was added to the tail. -/
lemma spliceAllocNode_shape (storage : MNode) (h : MGraph) (node : MNode)
    (t : List MNode) (hnodes : h.nodes = storage :: t)
    (hne : node.nid ≠ storage.nid) (hlt : storage.nid < h.nextNid) :
    ∃ t3, (spliceAllocNode storage h node).nodes = storage :: t3 ∧
      (∀ n ∈ t3, n.nid = h.nextNid ∨ ∃ m ∈ t, n.nid = m.nid) ∧
      (∀ k, countKind t3 k = (if allocTensorKind == k then 1 else 0) + countKind t k) := by
  have hsb : (storage.nid == node.nid) = false := beq_nat_false_of_ne (Ne.symm hne)
  have hsa : (storage.nid == (allocNodeFor h).nid) = false :=
    beq_nat_false_of_ne (Nat.ne_of_lt hlt)
  refine ⟨addInputTo (insertBeforeNid (addInputTo t node.nid h.nextVid) node.nid
    (allocNodeFor h)) (allocNodeFor h).nid (nodeOutput0 storage), ?_, ?_, ?_⟩
  · show addInputTo (insertBeforeNid (addInputTo h.nodes node.nid h.nextVid) node.nid
        (allocNodeFor h)) (allocNodeFor h).nid (nodeOutput0 storage) = _
    rw [hnodes, addInputTo_cons storage t node.nid h.nextVid hsb,
      insertBeforeNid_cons_ne storage _ node.nid (allocNodeFor h) hsb,
      addInputTo_cons storage _ (allocNodeFor h).nid (nodeOutput0 storage) hsa]
  · intro n hn
    obtain ⟨m2, hm2, hnid2, _, _⟩ := mem_addInputTo _ _ _ _ hn
    rcases mem_insertBeforeNid _ _ _ _ hm2 with rfl | hm3
    · exact Or.inl (by rw [hnid2]; rfl)
    · obtain ⟨m4, hm4, hnid4, _, _⟩ := mem_addInputTo _ _ _ _ hm3
      exact Or.inr ⟨m4, hm4, by rw [hnid2, hnid4]⟩
  · intro k
    rw [countKind_addInputTo, countKind_insertBeforeNid, countKind_addInputTo]
    rfl

/-- Case analysis on the graph a single applier step hands back: either the
step failed before any mutation (no producer found) and the graph is
untouched, or the graph is the spliced graph with zero, one, or two
attribute updates on the fresh alloc node, and the node counter advanced by
one. -/
lemma allocTensorStep_graph_cases (storage : MNode) (h : MGraph) (item : Nat × Region) :
    resGraph (allocTensorStep storage h item) = h ∨
    ∃ node f1 f2, findProducer h.nodes item.1 = some node ∧
      (resGraph (allocTensorStep storage h item)).nodes =
        setAttrsOn (setAttrsOn (spliceAllocNode storage h node).nodes
          (allocNodeFor h).nid f1) (allocNodeFor h).nid f2 ∧
      (resGraph (allocTensorStep storage h item)).nextNid = h.nextNid + 1 := by
  simp only [allocTensorStep]
  split
  · exact Or.inl rfl
  next node hfp =>
    split
    next ttp hty =>
      by_cases hb : ((item.2.offset + item.2.size) % U64 ≤ storage.attrs.total_size.getD 0)
      · rw [if_pos hb]
        cases hst : ttp.scalarType with
        | some st =>
          exact Or.inr ⟨node,
            (fun a =>
              { a with
                size := some item.2.size, offset := some item.2.offset,
                sizes := some (getSizesStrides ttp).1,
                stride := some (getSizesStrides ttp).2,
                device := some (storage.attrs.device.getD 0) }),
            (fun a => { a with dtype := some st }), hfp, rfl, rfl⟩
        | none =>
          refine Or.inr ⟨node,
            (fun a =>
              { a with
                size := some item.2.size, offset := some item.2.offset,
                sizes := some (getSizesStrides ttp).1,
                stride := some (getSizesStrides ttp).2,
                device := some (storage.attrs.device.getD 0) }),
            (fun a => a), hfp, ?_, rfl⟩
          rw [setAttrsOn_id]
          rfl
      · rw [if_neg hb]
        refine Or.inr ⟨node, (fun a => a), (fun a => a), hfp, ?_, rfl⟩
        rw [setAttrsOn_id, setAttrsOn_id]
        rfl
    next x hne2 =>
      refine Or.inr ⟨node, (fun a => a), (fun a => a), hfp, ?_, rfl⟩
      rw [setAttrsOn_id, setAttrsOn_id]
      rfl

/-- A single applier step preserves the storage node at the head (its id
matches no tail node and the planned value is not its output), does not add
or remove arena-allocation nodes, and keeps the storage id below the node
counter. -/
lemma allocTensorStep_shape (storage : MNode) (h : MGraph) (item : Nat × Region)
    (t : List MNode) (hnodes : h.nodes = storage :: t)
    (hnid : ∀ n ∈ t, n.nid ≠ storage.nid) (hlt : storage.nid < h.nextNid)
    (hvout : (storage.outputs.any fun o => o.1 == item.1) = false) :
    ∃ t2, (resGraph (allocTensorStep storage h item)).nodes = storage :: t2 ∧
      (∀ n ∈ t2, n.nid ≠ storage.nid) ∧
      countKind t2 allocStorageKind = countKind t allocStorageKind ∧
      storage.nid < (resGraph (allocTensorStep storage h item)).nextNid := by
  rcases allocTensorStep_graph_cases storage h item with hcase | ⟨node, f1, f2, hfp, hng, hnn⟩
  · refine ⟨t, ?_, hnid, rfl, ?_⟩
    · rw [hcase, hnodes]
    · rw [hcase]
      exact hlt
  · have hmem : node ∈ t := by
      have hm := List.mem_of_find?_eq_some hfp
      rw [hnodes] at hm
      rcases List.mem_cons.mp hm with rfl | hm2
      · exfalso
        have hpred := List.find?_some hfp
        rw [hvout] at hpred
        cases hpred
      · exact hm2
    have hne : node.nid ≠ storage.nid := hnid node hmem
    obtain ⟨t3, hsp, hnid3, hcnt3⟩ := spliceAllocNode_shape storage h node t hnodes hne hlt
    have hsa : (storage.nid == (allocNodeFor h).nid) = false :=
      beq_nat_false_of_ne (Nat.ne_of_lt hlt)
    refine ⟨setAttrsOn (setAttrsOn t3 (allocNodeFor h).nid f1) (allocNodeFor h).nid f2,
      ?_, ?_, ?_, ?_⟩
    · rw [hng, hsp, setAttrsOn_cons storage _ _ f1 hsa, setAttrsOn_cons storage _ _ f2 hsa]
    · intro n hn
      obtain ⟨m2, hm2, hnid2, _, _⟩ := mem_setAttrsOn _ _ _ _ hn
      obtain ⟨m3, hm3, hnid3b, _, _⟩ := mem_setAttrsOn _ _ _ _ hm2
      rcases hnid3 m3 hm3 with he | ⟨m4, hm4, he⟩
      · rw [hnid2, hnid3b, he]
        exact Nat.ne_of_gt hlt
      · rw [hnid2, hnid3b, he]
        exact hnid m4 hm4
    · have hne2 : (allocTensorKind == allocStorageKind) = false := by decide
      rw [countKind_setAttrsOn, countKind_setAttrsOn, hcnt3 allocStorageKind, hne2,
        if_neg Bool.false_ne_true, Nat.zero_add]
    · rw [hnn]
      omega

/-- Folding the applier over a plan whose keys are never the storage output
keeps the storage node at the head and adds no arena-allocation node,
whether the fold succeeds or aborts. -/
lemma insertAllocTensorNodes_head (storage : MNode) (plan : List (Nat × Region)) :
    ∀ (h : MGraph) (t : List MNode), h.nodes = storage :: t →
      (∀ n ∈ t, n.nid ≠ storage.nid) → storage.nid < h.nextNid →
      (∀ p ∈ plan, (storage.outputs.any fun o => o.1 == p.1) = false) →
      ∃ t2, (resGraph (insertAllocTensorNodes storage h plan)).nodes = storage :: t2 ∧
        countKind t2 allocStorageKind = countKind t allocStorageKind := by
  induction plan with
  | nil =>
    intro h t h1 _ _ _
    exact ⟨t, h1, rfl⟩
  | cons item rest ih =>
    intro h t h1 h2 h3 h4
    obtain ⟨t2, hs1, hs2, hs3, hs4⟩ :=
      allocTensorStep_shape storage h item t h1 h2 h3 (h4 item (List.mem_cons_self item rest))
    rw [insertAllocTensorNodes_cons]
    cases hse : allocTensorStep storage h item with
    | error e =>
      rw [hse] at hs1
      exact ⟨t2, hs1, hs3⟩
    | ok g2 =>
      rw [hse] at hs1 hs4
      obtain ⟨t4, hr1, hr2⟩ := ih g2 t2 hs1 hs2 hs4
        (fun p hp => h4 p (List.mem_cons_of_mem item hp))
      exact ⟨t4, hr1, hr2.trans hs3⟩

/-- The Plan Applier (storage insertion followed by the binding fold) puts
the storage node at the head and adds no other arena-allocation node, for
any plan whose keys are values of the program. -/
lemma applyPlan_shape (E : ExtEnv) (g : MGraph) (plan : List (Nat × Region))
    (hwf : WfGraph g)
    (hkeys : ∀ p ∈ plan, ∃ n ∈ g.nodes, ∃ o ∈ n.outputs, o.1 = p.1) :
    ∃ tail, (resGraph (applyPlan E g plan)).nodes =
        (insertAllocStorageNode E g (getTotalAllocationSize plan)).1 :: tail ∧
      countKind tail allocStorageKind = countKind g.nodes allocStorageKind := by
  obtain ⟨hnodup, hnid, hvid⟩ := hwf
  have happ : applyPlan E g plan =
      insertAllocTensorNodes (insertAllocStorageNode E g (getTotalAllocationSize plan)).1
        (insertAllocStorageNode E g (getTotalAllocationSize plan)).2 plan := rfl
  rw [happ]
  apply insertAllocTensorNodes_head
  · rfl
  · intro n hn he
    have h1 : n.nid < g.nextNid := hnid n hn
    rw [show (insertAllocStorageNode E g (getTotalAllocationSize plan)).1.nid = g.nextNid
      from rfl] at he
    omega
  · show g.nextNid < g.nextNid + 1
    omega
  · intro p hp
    obtain ⟨n, hn, o, ho, hoe⟩ := hkeys p hp
    have hplt : p.1 < g.nextVid := hoe ▸ hvid n hn o ho
    show (([(g.nextVid, VType.other)] : List (Nat × VType)).any fun o => o.1 == p.1) = false
    simp [beq_nat_false_of_ne (Nat.ne_of_gt hplt)]

/-- C5: for a known non-trivial strategy, exactly one arena-allocation
directive is emitted by the run — the `prim::AllocateStorage` count grows by
exactly one — it stands at the head of the program (before every
pre-existing node), and it carries the computed total arena size and the
picked target device (CPU when no device is picked).  `hkeys` is the spec's
coverage contract for the externally implemented strategies: every planned
value is a value of the program. -/
theorem planMemory_storage_directive (E : ExtEnv) (g : MGraph) (strat : Strategy)
    (hwf : WfGraph g)
    (hknown : strat = Strategy.GREEDY_BY_SIZE ∨ strat = Strategy.LINEAR_SCAN ∨
      strat = Strategy.GREEDY_BY_BREADTH)
    (hkeys : ∀ p ∈ stratPlan E g strat, ∃ n ∈ g.nodes, ∃ o ∈ n.outputs, o.1 = p.1) :
    ∃ tail,
      (resGraph (planMemory E g strat)).nodes =
        (insertAllocStorageNode E g (getTotalAllocationSize (stratPlan E g strat))).1
          :: tail ∧
      countKind (resGraph (planMemory E g strat)).nodes allocStorageKind =
        countKind g.nodes allocStorageKind + 1 ∧
      (insertAllocStorageNode E g
        (getTotalAllocationSize (stratPlan E g strat))).1.kind = allocStorageKind ∧
      (insertAllocStorageNode E g
        (getTotalAllocationSize (stratPlan E g strat))).1.attrs.total_size =
        some (getTotalAllocationSize (stratPlan E g strat)) ∧
      (insertAllocStorageNode E g
        (getTotalAllocationSize (stratPlan E g strat))).1.attrs.device =
        some (match E.pickDevice g with | some d => d | none => kCPU) := by
  have hpm : planMemory E g strat = applyPlan E g (stratPlan E g strat) := by
    rcases hknown with rfl | rfl | rfl
    · rfl
    · rfl
    · rfl
  obtain ⟨tail, h1, h2⟩ := applyPlan_shape E g (stratPlan E g strat) hwf hkeys
  rw [hpm]
  refine ⟨tail, h1, ?_, rfl, rfl, rfl⟩
  have hsk : ((insertAllocStorageNode E g
      (getTotalAllocationSize (stratPlan E g strat))).1.kind == allocStorageKind) = true :=
    by rfl
  rw [h1, countKind_cons, h2, hsk, if_pos rfl]
  omega

/-- Witness for C5 on the concrete environment `E8` and graph `g8` with the
greedy-by-size selector. -/
theorem planMemory_storage_directive_witness :
    ∃ tail,
      (resGraph (planMemory E8 g8 Strategy.GREEDY_BY_SIZE)).nodes =
        (insertAllocStorageNode E8 g8
          (getTotalAllocationSize (stratPlan E8 g8 Strategy.GREEDY_BY_SIZE))).1 :: tail ∧
      countKind (resGraph (planMemory E8 g8 Strategy.GREEDY_BY_SIZE)).nodes
          allocStorageKind = countKind g8.nodes allocStorageKind + 1 ∧
      (insertAllocStorageNode E8 g8
        (getTotalAllocationSize (stratPlan E8 g8 Strategy.GREEDY_BY_SIZE))).1.kind =
        allocStorageKind ∧
      (insertAllocStorageNode E8 g8
        (getTotalAllocationSize (stratPlan E8 g8 Strategy.GREEDY_BY_SIZE))).1.attrs.total_size =
        some (getTotalAllocationSize (stratPlan E8 g8 Strategy.GREEDY_BY_SIZE)) ∧
      (insertAllocStorageNode E8 g8
        (getTotalAllocationSize (stratPlan E8 g8 Strategy.GREEDY_BY_SIZE))).1.attrs.device =
        some (match E8.pickDevice g8 with | some d => d | none => kCPU) :=
  planMemory_storage_directive E8 g8 Strategy.GREEDY_BY_SIZE (by decide) (Or.inl rfl)
    (by decide)

/-! ## C6: binding directives, machinery -/

lemma exists_decomp_of_find? (l : List MNode) (p : MNode → Bool) (n : MNode)
    (h : l.find? p = some n) :
    ∃ l1 l2, l = l1 ++ n :: l2 ∧ ∀ q ∈ l1, p q = false := by
  induction l with
  | nil => cases h
  | cons x rest ih =>
    by_cases hc : p x
    · rw [List.find?_cons_of_pos _ hc] at h
      injection h with h
      subst h
      exact ⟨[], rest, rfl, fun q hq => absurd hq (List.not_mem_nil q)⟩
    · have hc' : p x = false := by
        cases hx : p x
        · rfl
        · exact absurd hx hc
      rw [List.find?_cons_of_neg _ hc] at h
      obtain ⟨l1, l2, he, hall⟩ := ih h
      refine ⟨x :: l1, l2, by rw [List.cons_append, he], ?_⟩
      intro q hq
      rcases List.mem_cons.mp hq with rfl | hq2
      · exact hc'
      · exact hall q hq2

lemma addInputTo_decomp (l1 l2 : List MNode) (a pr : MNode) (t v : Nat)
    (ha : (a.nid == t) = false) (hp : (pr.nid == t) = false) :
    addInputTo (l1 ++ a :: pr :: l2) t v =
      addInputTo l1 t v ++ a :: pr :: addInputTo l2 t v := by
  show List.map _ _ = _
  rw [List.map_append, List.map_cons, List.map_cons,
    if_neg (by rw [ha]; exact Bool.false_ne_true),
    if_neg (by rw [hp]; exact Bool.false_ne_true)]
  rfl

lemma setAttrsOn_decomp (l1 l2 : List MNode) (a pr : MNode) (t : Nat) (f : Attrs → Attrs)
    (ha : (a.nid == t) = false) (hp : (pr.nid == t) = false) :
    setAttrsOn (l1 ++ a :: pr :: l2) t f =
      setAttrsOn l1 t f ++ a :: pr :: setAttrsOn l2 t f := by
  show List.map _ _ = _
  rw [List.map_append, List.map_cons, List.map_cons,
    if_neg (by rw [ha]; exact Bool.false_ne_true),
    if_neg (by rw [hp]; exact Bool.false_ne_true)]
  rfl

lemma insertBeforeNid_decomp (l1 l2 : List MNode) (a pr : MNode) (t : Nat) (nw : MNode)
    (ha : (a.nid == t) = false) (hp : (pr.nid == t) = false) :
    ∃ m1 m2, insertBeforeNid (l1 ++ a :: pr :: l2) t nw = m1 ++ a :: pr :: m2 := by
  induction l1 with
  | nil =>
    rw [List.nil_append, insertBeforeNid_cons_ne a _ t nw ha,
      insertBeforeNid_cons_ne pr _ t nw hp]
    exact ⟨[], insertBeforeNid l2 t nw, rfl⟩
  | cons x rest ih =>
    by_cases hc : x.nid == t
    · rw [List.cons_append, insertBeforeNid, if_pos hc]
      exact ⟨nw :: x :: rest, l2, by rw [List.cons_append, List.cons_append]⟩
    · have hc' : (x.nid == t) = false := by
        cases hx : x.nid == t
        · rfl
        · exact absurd hx hc
      rw [List.cons_append, insertBeforeNid_cons_ne x _ t nw hc']
      obtain ⟨m1, m2, hm⟩ := ih
      exact ⟨x :: m1, m2, by rw [hm, List.cons_append]⟩

lemma map_noop_of_ne (l : List MNode) (t : Nat) (f : MNode → MNode)
    (h : ∀ q ∈ l, q.nid ≠ t) :
    (l.map fun n => if n.nid == t then f n else n) = l := by
  induction l with
  | nil => rfl
  | cons x rest ih =>
    rw [List.map_cons, if_neg (by
      rw [beq_nat_false_of_ne (h x (List.mem_cons_self x rest))]
      exact Bool.false_ne_true)]
    rw [ih fun q hq => h q (List.mem_cons_of_mem x hq)]

lemma addInputTo_unique (l1 l2 : List MNode) (n : MNode) (w : Nat)
    (h1 : ∀ q ∈ l1, q.nid ≠ n.nid) (h2 : ∀ q ∈ l2, q.nid ≠ n.nid) :
    addInputTo (l1 ++ n :: l2) n.nid w =
      l1 ++ { n with inputs := n.inputs ++ [w] } :: l2 := by
  show List.map _ _ = _
  rw [List.map_append, List.map_cons, if_pos (beq_self_eq_true n.nid),
    map_noop_of_ne l1 n.nid _ h1, map_noop_of_ne l2 n.nid _ h2]

lemma setAttrsOn_unique (l1 l2 : List MNode) (n : MNode) (f : Attrs → Attrs)
    (h1 : ∀ q ∈ l1, q.nid ≠ n.nid) (h2 : ∀ q ∈ l2, q.nid ≠ n.nid) :
    setAttrsOn (l1 ++ n :: l2) n.nid f = l1 ++ { n with attrs := f n.attrs } :: l2 := by
  show List.map _ _ = _
  rw [List.map_append, List.map_cons, if_pos (beq_self_eq_true n.nid),
    map_noop_of_ne l1 n.nid _ h1, map_noop_of_ne l2 n.nid _ h2]

lemma insertBeforeNid_unique (l1 l2 : List MNode) (n : MNode) (t : Nat) (nw : MNode)
    (hn : (n.nid == t) = true) (h1 : ∀ q ∈ l1, (q.nid == t) = false) :
    insertBeforeNid (l1 ++ n :: l2) t nw = l1 ++ nw :: n :: l2 := by
  induction l1 with
  | nil => rw [List.nil_append, insertBeforeNid, if_pos hn, List.nil_append]
  | cons x rest ih =>
    rw [List.cons_append,
      insertBeforeNid_cons_ne x _ t nw (h1 x (List.mem_cons_self x rest)),
      ih fun q hq => h1 q (List.mem_cons_of_mem x hq), List.cons_append]

lemma insertBeforeNid_perm (l : List MNode) (t : Nat) (nw : MNode) :
    (insertBeforeNid l t nw).Perm (nw :: l) := by
  induction l with
  | nil => exact List.Perm.refl _
  | cons n rest ih =>
    by_cases hc : n.nid == t
    · rw [insertBeforeNid, if_pos hc]
    · have hc' : (n.nid == t) = false := by
        cases hx : n.nid == t
        · rfl
        · exact absurd hx hc
      rw [insertBeforeNid_cons_ne n rest t nw hc']
      exact (List.Perm.cons n ih).trans (List.Perm.swap nw n rest)

lemma nids_map_preserve (l : List MNode) (f : MNode → MNode)
    (hf : ∀ n, (f n).nid = n.nid) :
    (l.map f).map MNode.nid = l.map MNode.nid := by
  rw [List.map_map]
  exact List.map_congr_left fun n _ => hf n

lemma bool_eq_false_of_ne_true {b : Bool} (h : ¬ b = true) : b = false := by
  cases hx : b
  · rfl
  · exact absurd hx h

lemma findProducer_cons_pos (n : MNode) (rest : List MNode) (v : Nat)
    (h : (n.outputs.any fun o => o.1 == v) = true) :
    findProducer (n :: rest) v = some n :=
  List.find?_cons_of_pos rest h

lemma findProducer_cons_neg (n : MNode) (rest : List MNode) (v : Nat)
    (h : (n.outputs.any fun o => o.1 == v) = false) :
    findProducer (n :: rest) v = findProducer rest v :=
  List.find?_cons_of_neg rest (by rw [h]; exact Bool.false_ne_true)

lemma findProducer_mapAt (l : List MNode) (f : MNode → MNode)
    (hf : ∀ n, (f n).outputs = n.outputs) (v : Nat) :
    findProducer (l.map f) v = (findProducer l v).map f := by
  induction l with
  | nil => rfl
  | cons n rest ih =>
    by_cases hc : (n.outputs.any fun o => o.1 == v) = true
    · have hfc : ((f n).outputs.any fun o => o.1 == v) = true := by
        rw [hf n]; exact hc
      show findProducer (f n :: rest.map f) v = Option.map f (findProducer (n :: rest) v)
      rw [findProducer_cons_pos (f n) _ v hfc, findProducer_cons_pos n rest v hc]
      rfl
    · have hc' : (n.outputs.any fun o => o.1 == v) = false := bool_eq_false_of_ne_true hc
      have hfc : ((f n).outputs.any fun o => o.1 == v) = false := by
        rw [hf n]; exact hc'
      show findProducer (f n :: rest.map f) v = Option.map f (findProducer (n :: rest) v)
      rw [findProducer_cons_neg (f n) _ v hfc, findProducer_cons_neg n rest v hc', ih]

lemma findProducer_addInputTo (l : List MNode) (t w v : Nat) :
    findProducer (addInputTo l t w) v =
      (findProducer l v).map fun n =>
        if n.nid == t then { n with inputs := n.inputs ++ [w] } else n := by
  apply findProducer_mapAt
  intro n
  by_cases hc : n.nid == t
  · rw [if_pos hc]
  · rw [if_neg hc]

lemma findProducer_setAttrsOn (l : List MNode) (t : Nat) (f : Attrs → Attrs) (v : Nat) :
    findProducer (setAttrsOn l t f) v =
      (findProducer l v).map fun n =>
        if n.nid == t then { n with attrs := f n.attrs } else n := by
  apply findProducer_mapAt
  intro n
  by_cases hc : n.nid == t
  · rw [if_pos hc]
  · rw [if_neg hc]

lemma findProducer_insertBeforeNid (l : List MNode) (t : Nat) (nw : MNode) (v : Nat)
    (hw : (nw.outputs.any fun o => o.1 == v) = false) :
    findProducer (insertBeforeNid l t nw) v = findProducer l v := by
  induction l with
  | nil =>
    show findProducer [nw] v = findProducer [] v
    rw [findProducer_cons_neg nw [] v hw]
  | cons n rest ih =>
    by_cases hc : n.nid == t
    · rw [insertBeforeNid, if_pos hc]
      rw [findProducer_cons_neg nw (n :: rest) v hw]
    · have hc' : (n.nid == t) = false := bool_eq_false_of_ne_true hc
      rw [insertBeforeNid_cons_ne n rest t nw hc']
      by_cases hp : (n.outputs.any fun o => o.1 == v) = true
      · rw [findProducer_cons_pos n _ v hp, findProducer_cons_pos n rest v hp]
      · have hp' : (n.outputs.any fun o => o.1 == v) = false := bool_eq_false_of_ne_true hp
        rw [findProducer_cons_neg n _ v hp', findProducer_cons_neg n rest v hp', ih]

/-- The node id of the producer of a value (0 when the value has none). -/
def producerNidD (g : MGraph) (v : Nat) : Nat :=
  match findProducer g.nodes v with
  | some n => n.nid
  | none => 0

/-- The graph a successful applier step returns, written out explicitly. -/
def stepOkGraph (storage : MNode) (h : MGraph) (item : Nat × Region)
    (node : MNode) (ttp : TensorTy) (st : Nat) : MGraph :=
  { nodes := setAttrsOn (setAttrsOn (spliceAllocNode storage h node).nodes
      (allocNodeFor h).nid (fun a =>
        { a with size := some item.2.size, offset := some item.2.offset,
                 sizes := some (getSizesStrides ttp).1,
                 stride := some (getSizesStrides ttp).2,
                 device := some (storage.attrs.device.getD 0) }))
      (allocNodeFor h).nid (fun a => { a with dtype := some st }),
    nextNid := h.nextNid + 1, nextVid := h.nextVid + 1 }

/-- A well-typed, in-bounds plan entry makes the applier step succeed with
exactly the graph `stepOkGraph`. -/
lemma allocTensorStep_ok (storage : MNode) (h : MGraph) (item : Nat × Region)
    (node : MNode) (ttp : TensorTy) (st : Nat)
    (hfp : findProducer h.nodes item.1 = some node)
    (hty : lookupOutputTy node item.1 = some (VType.tensor ttp))
    (hst : ttp.scalarType = some st)
    (hb : (item.2.offset + item.2.size) % U64 ≤ storage.attrs.total_size.getD 0) :
    allocTensorStep storage h item = .ok (stepOkGraph storage h item node ttp st) := by
  simp only [allocTensorStep, hfp, hty, hst, if_pos hb]
  rfl

/-- The binding directive for plan entry `p` is in place in graph `h2`,
relative to the pre-application graph `g`: one `prim::AllocateTensor` node
stands immediately before the producing node of `p.1`, carries the Region's
offset and size, the computed extents and strides, the storage device and
the element type, takes the storage output as its input, and the producing
node takes the directive's output as an additional input. -/
def BindingPlaced (storage : MNode) (g : MGraph) (h2 : MGraph) (p : Nat × Region) : Prop :=
  ∃ l1 a pr l2 vA ttp st,
    h2.nodes = l1 ++ a :: pr :: l2 ∧
    a.kind = allocTensorKind ∧
    lookupOutputTy pr p.1 = some (VType.tensor ttp) ∧
    ttp.scalarType = some st ∧
    a.attrs = { total_size := none, device := some (storage.attrs.device.getD 0),
                size := some p.2.size, offset := some p.2.offset,
                sizes := some (getSizesStrides ttp).1,
                stride := some (getSizesStrides ttp).2, dtype := some st } ∧
    a.outputs = [(vA, VType.other)] ∧
    vA ∈ pr.inputs ∧
    a.inputs = [nodeOutput0 storage] ∧
    pr.nid = producerNidD g p.1 ∧
    g.nextNid ≤ a.nid

lemma countKind_spliceAllocNode (storage : MNode) (h : MGraph) (node : MNode)
    (k : String) :
    countKind (spliceAllocNode storage h node).nodes k =
      (if allocTensorKind == k then 1 else 0) + countKind h.nodes k := by
  show countKind (addInputTo (insertBeforeNid (addInputTo h.nodes node.nid h.nextVid)
    node.nid (allocNodeFor h)) (allocNodeFor h).nid (nodeOutput0 storage)) k = _
  rw [countKind_addInputTo, countKind_insertBeforeNid, countKind_addInputTo]
  rfl

/-- The node list of `stepOkGraph`, spelled out. -/
lemma stepOkGraph_nodes (storage : MNode) (h : MGraph) (item : Nat × Region)
    (node : MNode) (ttp : TensorTy) (st : Nat) :
    (stepOkGraph storage h item node ttp st).nodes =
      setAttrsOn (setAttrsOn (addInputTo (insertBeforeNid
        (addInputTo h.nodes node.nid h.nextVid) node.nid (allocNodeFor h))
        (allocNodeFor h).nid (nodeOutput0 storage)) (allocNodeFor h).nid (fun a =>
          { a with size := some item.2.size, offset := some item.2.offset,
                   sizes := some (getSizesStrides ttp).1,
                   stride := some (getSizesStrides ttp).2,
                   device := some (storage.attrs.device.getD 0) }))
        (allocNodeFor h).nid (fun a => { a with dtype := some st }) := rfl

lemma countKind_stepOkGraph (storage : MNode) (h : MGraph) (item : Nat × Region)
    (node : MNode) (ttp : TensorTy) (st : Nat) (k : String) :
    countKind (stepOkGraph storage h item node ttp st).nodes k =
      (if allocTensorKind == k then 1 else 0) + countKind h.nodes k := by
  rw [stepOkGraph_nodes, countKind_setAttrsOn, countKind_setAttrsOn,
    countKind_addInputTo, countKind_insertBeforeNid, countKind_addInputTo]
  rfl

lemma mem_stepOkGraph (storage : MNode) (h : MGraph) (item : Nat × Region)
    (node : MNode) (ttp : TensorTy) (st : Nat) (n : MNode)
    (hn : n ∈ (stepOkGraph storage h item node ttp st).nodes) :
    (n.nid = h.nextNid ∧ n.outputs = [(h.nextVid, VType.other)]) ∨
      ∃ m ∈ h.nodes, n.nid = m.nid ∧ n.outputs = m.outputs := by
  rw [stepOkGraph_nodes] at hn
  obtain ⟨m1, hm1, hnid1, _, hout1⟩ := mem_setAttrsOn _ _ _ _ hn
  obtain ⟨m2, hm2, hnid2, _, hout2⟩ := mem_setAttrsOn _ _ _ _ hm1
  obtain ⟨m3, hm3, hnid3, _, hout3⟩ := mem_addInputTo _ _ _ _ hm2
  rcases mem_insertBeforeNid _ _ _ _ hm3 with rfl | hm4
  · exact Or.inl ⟨by rw [hnid1, hnid2, hnid3]; rfl, by rw [hout1, hout2, hout3]; rfl⟩
  · obtain ⟨m5, hm5, hnid5, _, hout5⟩ := mem_addInputTo _ _ _ _ hm4
    exact Or.inr ⟨m5, hm5, by rw [hnid1, hnid2, hnid3, hnid5],
      by rw [hout1, hout2, hout3, hout5]⟩

lemma nids_setAttrsOn (l : List MNode) (t : Nat) (f : Attrs → Attrs) :
    (setAttrsOn l t f).map MNode.nid = l.map MNode.nid := by
  apply nids_map_preserve
  intro n
  by_cases hc : n.nid == t
  · rw [if_pos hc]
  · rw [if_neg hc]

lemma nids_addInputTo (l : List MNode) (t v : Nat) :
    (addInputTo l t v).map MNode.nid = l.map MNode.nid := by
  apply nids_map_preserve
  intro n
  by_cases hc : n.nid == t
  · rw [if_pos hc]
  · rw [if_neg hc]

lemma nids_stepOkGraph (storage : MNode) (h : MGraph) (item : Nat × Region)
    (node : MNode) (ttp : TensorTy) (st : Nat) :
    ((stepOkGraph storage h item node ttp st).nodes.map MNode.nid).Perm
      (h.nextNid :: h.nodes.map MNode.nid) := by
  rw [stepOkGraph_nodes, nids_setAttrsOn, nids_setAttrsOn, nids_addInputTo]
  have hperm := (insertBeforeNid_perm (addInputTo h.nodes node.nid h.nextVid)
    node.nid (allocNodeFor h)).map MNode.nid
  rw [List.map_cons] at hperm
  rw [nids_addInputTo] at hperm
  exact hperm

lemma findProducer_stepOkGraph (storage : MNode) (h : MGraph) (item : Nat × Region)
    (node : MNode) (ttp : TensorTy) (st : Nat) (v : Nat) (pv : MNode)
    (hpv : findProducer h.nodes v = some pv)
    (hnv : v ≠ h.nextVid)
    (hne1 : pv.nid ≠ node.nid) (hne2 : pv.nid ≠ h.nextNid) :
    findProducer (stepOkGraph storage h item node ttp st).nodes v = some pv := by
  have hb1 : ¬ ((pv.nid == node.nid) = true) := by
    rw [beq_nat_false_of_ne hne1]; exact Bool.false_ne_true
  have hb2 : ¬ ((pv.nid == (allocNodeFor h).nid) = true) := by
    rw [show (allocNodeFor h).nid = h.nextNid from rfl, beq_nat_false_of_ne hne2]
    exact Bool.false_ne_true
  have halloc : (((allocNodeFor h).outputs).any fun o => o.1 == v) = false := by
    show ((h.nextVid == v) || false) = false
    rw [beq_nat_false_of_ne fun he => hnv he.symm]
    rfl
  rw [stepOkGraph_nodes, findProducer_setAttrsOn, findProducer_setAttrsOn,
    findProducer_addInputTo, findProducer_insertBeforeNid _ _ _ _ halloc,
    findProducer_addInputTo, hpv]
  simp only [Option.map_some']
  rw [if_neg hb1, if_neg hb2, if_neg hb2, if_neg hb2]

/-- A successful step places the binding for the entry it processed. -/
lemma stepOkGraph_places (storage : MNode) (g h : MGraph) (item : Nat × Region)
    (node : MNode) (ttp : TensorTy) (st : Nat)
    (hA : (h.nodes.map MNode.nid).Nodup)
    (hB : ∀ n ∈ h.nodes, n.nid < h.nextNid)
    (hfp : findProducer h.nodes item.1 = some node)
    (hty : lookupOutputTy node item.1 = some (VType.tensor ttp))
    (hst : ttp.scalarType = some st)
    (hpg : producerNidD g item.1 = node.nid)
    (hgn : g.nextNid ≤ h.nextNid) :
    BindingPlaced storage g (stepOkGraph storage h item node ttp st) item := by
  obtain ⟨L1, L2, hL, _⟩ := exists_decomp_of_find? h.nodes _ node hfp
  have hA2 := hA
  rw [hL, List.map_append, List.map_cons, List.nodup_append] at hA2
  obtain ⟨_, hA3, hdisj⟩ := hA2
  have hnotin2 : node.nid ∉ L2.map MNode.nid := (List.nodup_cons.mp hA3).1
  have h1ne : ∀ q ∈ L1, q.nid ≠ node.nid := by
    intro q hq he
    exact hdisj (he ▸ List.mem_map_of_mem MNode.nid hq) (List.mem_cons_self _ _)
  have h2ne : ∀ q ∈ L2, q.nid ≠ node.nid := by
    intro q hq he
    exact hnotin2 (he ▸ List.mem_map_of_mem MNode.nid hq)
  have h1lt : ∀ q ∈ L1, q.nid < h.nextNid := by
    intro q hq
    exact hB q (by rw [hL]; exact List.mem_append_left _ hq)
  have h2lt : ∀ q ∈ L2, q.nid < h.nextNid := by
    intro q hq
    exact hB q (by
      rw [hL]
      exact List.mem_append_right _ (List.mem_cons_of_mem _ hq))
  have hnlt : node.nid < h.nextNid :=
    hB node (by rw [hL]; exact List.mem_append_right _ (List.mem_cons_self _ _))
  have h1neA : ∀ q ∈ L1, q.nid ≠ h.nextNid := fun q hq => Nat.ne_of_lt (h1lt q hq)
  have h2neA : ∀ q ∈ { node with inputs := node.inputs ++ [h.nextVid] } :: L2,
      q.nid ≠ h.nextNid := by
    intro q hq
    rcases List.mem_cons.mp hq with rfl | hq2
    · exact Nat.ne_of_lt hnlt
    · exact Nat.ne_of_lt (h2lt q hq2)
  have hnodes : (stepOkGraph storage h item node ttp st).nodes =
      L1 ++ { nid := h.nextNid, kind := allocTensorKind,
              inputs := [] ++ [nodeOutput0 storage],
              outputs := [(h.nextVid, VType.other)],
              attrs := { total_size := none,
                         device := some (storage.attrs.device.getD 0),
                         size := some item.2.size, offset := some item.2.offset,
                         sizes := some (getSizesStrides ttp).1,
                         stride := some (getSizesStrides ttp).2,
                         dtype := some st } } ::
        { node with inputs := node.inputs ++ [h.nextVid] } :: L2 := by
    rw [stepOkGraph_nodes, hL,
      addInputTo_unique L1 L2 node h.nextVid h1ne h2ne,
      insertBeforeNid_unique L1 L2 { node with inputs := node.inputs ++ [h.nextVid] }
        node.nid (allocNodeFor h) (beq_self_eq_true node.nid)
        (fun q hq => beq_nat_false_of_ne (h1ne q hq)),
      addInputTo_unique L1 ({ node with inputs := node.inputs ++ [h.nextVid] } :: L2)
        (allocNodeFor h) (nodeOutput0 storage) h1neA h2neA,
      setAttrsOn_unique L1 ({ node with inputs := node.inputs ++ [h.nextVid] } :: L2)
        { allocNodeFor h with inputs := (allocNodeFor h).inputs ++ [nodeOutput0 storage] }
        _ h1neA h2neA,
      setAttrsOn_unique L1 ({ node with inputs := node.inputs ++ [h.nextVid] } :: L2)
        _ _ h1neA h2neA]
    rfl
  refine ⟨L1, _, { node with inputs := node.inputs ++ [h.nextVid] }, L2, h.nextVid,
    ttp, st, hnodes, rfl, hty, hst, rfl, rfl, ?_, rfl, hpg.symm, hgn⟩
  show h.nextVid ∈ node.inputs ++ [h.nextVid]
  simp

/-- A successful step for one entry preserves every already-placed binding
whose producer differs from the entry's producer. -/
lemma stepOkGraph_preserves (storage : MNode) (g h : MGraph) (item : Nat × Region)
    (node : MNode) (ttp : TensorTy) (st : Nat) (q : Nat × Region)
    (hB : ∀ n ∈ h.nodes, n.nid < h.nextNid)
    (hplaced : BindingPlaced storage g h q)
    (hnode_lt : node.nid < g.nextNid)
    (hne : producerNidD g q.1 ≠ node.nid) :
    BindingPlaced storage g (stepOkGraph storage h item node ttp st) q := by
  obtain ⟨l1, a, pr, l2, vA, ttq, stq, hdec, hk, hlo, hsq, hat, hout, hmem, hin,
    hprn, hga⟩ := hplaced
  have ha_mem : a ∈ h.nodes := by
    rw [hdec]
    exact List.mem_append_right _ (List.mem_cons_self _ _)
  have hpr_mem : pr ∈ h.nodes := by
    rw [hdec]
    exact List.mem_append_right _ (List.mem_cons_of_mem _ (List.mem_cons_self _ _))
  have ha_lt : a.nid < h.nextNid := hB a ha_mem
  have hpr_lt : pr.nid < h.nextNid := hB pr hpr_mem
  have hna : (a.nid == node.nid) = false := by
    apply beq_nat_false_of_ne
    intro he
    rw [he] at hga
    omega
  have hpa : (pr.nid == node.nid) = false := by
    apply beq_nat_false_of_ne
    rw [hprn]
    exact hne
  have hAa : (a.nid == (allocNodeFor h).nid) = false :=
    beq_nat_false_of_ne (Nat.ne_of_lt ha_lt)
  have hpA : (pr.nid == (allocNodeFor h).nid) = false :=
    beq_nat_false_of_ne (Nat.ne_of_lt hpr_lt)
  have e1 : addInputTo h.nodes node.nid h.nextVid =
      addInputTo l1 node.nid h.nextVid ++ a :: pr :: addInputTo l2 node.nid h.nextVid := by
    rw [hdec]
    exact addInputTo_decomp l1 l2 a pr node.nid h.nextVid hna hpa
  obtain ⟨m1, m2, e2⟩ := insertBeforeNid_decomp (addInputTo l1 node.nid h.nextVid)
    (addInputTo l2 node.nid h.nextVid) a pr node.nid (allocNodeFor h) hna hpa
  refine ⟨setAttrsOn (setAttrsOn (addInputTo m1 (allocNodeFor h).nid (nodeOutput0 storage))
      (allocNodeFor h).nid (fun a2 =>
        { a2 with
          size := some item.2.size, offset := some item.2.offset,
          sizes := some (getSizesStrides ttp).1,
          stride := some (getSizesStrides ttp).2,
          device := some (storage.attrs.device.getD 0) }))
      (allocNodeFor h).nid (fun a2 => { a2 with dtype := some st }), a, pr,
    setAttrsOn (setAttrsOn (addInputTo m2 (allocNodeFor h).nid (nodeOutput0 storage))
      (allocNodeFor h).nid (fun a2 =>
        { a2 with
          size := some item.2.size, offset := some item.2.offset,
          sizes := some (getSizesStrides ttp).1,
          stride := some (getSizesStrides ttp).2,
          device := some (storage.attrs.device.getD 0) }))
      (allocNodeFor h).nid (fun a2 => { a2 with dtype := some st }),
    vA, ttq, stq, ?_, hk, hlo, hsq, hat, hout, hmem, hin, hprn, hga⟩
  rw [stepOkGraph_nodes, e1, e2,
    addInputTo_decomp m1 m2 a pr (allocNodeFor h).nid (nodeOutput0 storage) hAa hpA,
    setAttrsOn_decomp _ _ a pr (allocNodeFor h).nid _ hAa hpA,
    setAttrsOn_decomp _ _ a pr (allocNodeFor h).nid _ hAa hpA]

/-- Main induction for C6: under well-formedness, producer-stability,
well-typedness and distinct producers, the applier fold succeeds, adds
exactly one binding node per entry, places every entry's binding, and
preserves already-placed bindings of unrelated producers. -/
lemma insertAllocTensorNodes_ok_aux (storage : MNode) (g : MGraph) :
    ∀ (rem : List (Nat × Region)) (h : MGraph),
      (h.nodes.map MNode.nid).Nodup →
      (∀ n ∈ h.nodes, n.nid < h.nextNid) →
      (∀ n ∈ h.nodes, ∀ o ∈ n.outputs, o.1 < h.nextVid) →
      g.nextNid ≤ h.nextNid → g.nextVid ≤ h.nextVid →
      (∀ p ∈ rem, p.1 < g.nextVid) →
      (∀ p ∈ rem, findProducer h.nodes p.1 = findProducer g.nodes p.1) →
      (∀ p ∈ rem, ∃ nd ttp st, findProducer g.nodes p.1 = some nd ∧
        nd.nid < g.nextNid ∧
        lookupOutputTy nd p.1 = some (VType.tensor ttp) ∧ ttp.scalarType = some st ∧
        (p.2.offset + p.2.size) % U64 ≤ storage.attrs.total_size.getD 0) →
      ((rem.map fun p => producerNidD g p.1).Nodup) →
      ∃ g2, insertAllocTensorNodes storage h rem = .ok g2 ∧
        countKind g2.nodes allocTensorKind =
          countKind h.nodes allocTensorKind + rem.length ∧
        (∀ p ∈ rem, BindingPlaced storage g g2 p) ∧
        (∀ q : Nat × Region, BindingPlaced storage g h q →
          (∀ p ∈ rem, producerNidD g q.1 ≠ producerNidD g p.1) →
          BindingPlaced storage g g2 q) := by
  intro rem
  induction rem with
  | nil =>
    intro h _ _ _ _ _ _ _ _ _
    exact ⟨h, rfl, by simp, fun p hp => absurd hp (List.not_mem_nil p),
      fun q hq _ => hq⟩
  | cons item rest ih =>
    intro h hA hB hC hgn hgv hklt hfps hty hnodup
    obtain ⟨nd, ttp, st, hfg, hndlt, hlo, hst, hb⟩ := hty item (List.mem_cons_self _ _)
    have hfh : findProducer h.nodes item.1 = some nd := by
      rw [hfps item (List.mem_cons_self _ _), hfg]
    have hok := allocTensorStep_ok storage h item nd ttp st hfh hlo hst hb
    have hpid : producerNidD g item.1 = nd.nid := by
      show (match findProducer g.nodes item.1 with
        | some n => n.nid
        | none => 0) = nd.nid
      rw [hfg]
    have hnodup2 : (producerNidD g item.1 ::
        (rest.map fun p2 => producerNidD g p2.1)).Nodup := by
      rw [show (producerNidD g item.1 :: (rest.map fun p2 => producerNidD g p2.1)) =
        ((item :: rest).map fun p2 => producerNidD g p2.1) from rfl]
      exact hnodup
    have hheadne : ∀ p ∈ rest, producerNidD g item.1 ≠ producerNidD g p.1 := by
      intro p hp he
      exact (List.nodup_cons.mp hnodup2).1
        (he ▸ List.mem_map_of_mem (fun p2 => producerNidD g p2.1) hp)
    -- invariants for the stepped graph
    have hfresh : h.nextNid ∉ h.nodes.map MNode.nid := by
      intro hmem
      obtain ⟨n, hn, he⟩ := List.mem_map.mp hmem
      exact absurd he (Nat.ne_of_lt (hB n hn))
    have hA2 : ((stepOkGraph storage h item nd ttp st).nodes.map MNode.nid).Nodup :=
      ((nids_stepOkGraph storage h item nd ttp st).nodup_iff).mpr
        (List.nodup_cons.mpr ⟨hfresh, hA⟩)
    have hB2 : ∀ n ∈ (stepOkGraph storage h item nd ttp st).nodes,
        n.nid < (stepOkGraph storage h item nd ttp st).nextNid := by
      intro n hn
      show n.nid < h.nextNid + 1
      rcases mem_stepOkGraph storage h item nd ttp st n hn with ⟨he, _⟩ | ⟨m, hm, he, _⟩
      · omega
      · have := hB m hm
        omega
    have hC2 : ∀ n ∈ (stepOkGraph storage h item nd ttp st).nodes,
        ∀ o ∈ n.outputs, o.1 < (stepOkGraph storage h item nd ttp st).nextVid := by
      intro n hn o ho
      show o.1 < h.nextVid + 1
      rcases mem_stepOkGraph storage h item nd ttp st n hn with ⟨_, he⟩ | ⟨m, hm, _, he⟩
      · rw [he] at ho
        rcases List.mem_cons.mp ho with rfl | hoo
        · exact Nat.lt_succ_self _
        · cases hoo
      · rw [he] at ho
        have := hC m hm o ho
        omega
    have hfps2 : ∀ p ∈ rest, findProducer (stepOkGraph storage h item nd ttp st).nodes p.1 =
        findProducer g.nodes p.1 := by
      intro p hp
      obtain ⟨ndp, ttpp, stp, hfgp, hndltp, _, _, _⟩ := hty p (List.mem_cons_of_mem _ hp)
      have hfhp : findProducer h.nodes p.1 = some ndp := by
        rw [hfps p (List.mem_cons_of_mem _ hp), hfgp]
      have hpidp : producerNidD g p.1 = ndp.nid := by
        show (match findProducer g.nodes p.1 with
          | some n => n.nid
          | none => 0) = ndp.nid
        rw [hfgp]
      have hnv : p.1 ≠ h.nextVid := by
        have := hklt p (List.mem_cons_of_mem _ hp)
        omega
      have hne1 : ndp.nid ≠ nd.nid := by
        rw [← hpidp, ← hpid]
        exact fun he => hheadne p hp he.symm
      have hne2 : ndp.nid ≠ h.nextNid := by omega
      rw [findProducer_stepOkGraph storage h item nd ttp st p.1 ndp hfhp hnv hne1 hne2,
        hfgp]
    obtain ⟨g2, hrec, hcount, hplaces, hpres⟩ :=
      ih (stepOkGraph storage h item nd ttp st) hA2 hB2 hC2
        (by show g.nextNid ≤ h.nextNid + 1; omega)
        (by show g.nextVid ≤ h.nextVid + 1; omega)
        (fun p hp => hklt p (List.mem_cons_of_mem _ hp))
        hfps2
        (fun p hp => hty p (List.mem_cons_of_mem _ hp))
        (List.nodup_cons.mp hnodup2).2
    refine ⟨g2, ?_, ?_, ?_, ?_⟩
    · rw [insertAllocTensorNodes_cons, hok]
      exact hrec
    · rw [hcount, countKind_stepOkGraph]
      have h1 : (allocTensorKind == allocTensorKind) = true := by decide
      rw [h1, if_pos rfl]
      show 1 + countKind h.nodes allocTensorKind + rest.length =
        countKind h.nodes allocTensorKind + (item :: rest).length
      rw [List.length_cons]
      omega
    · intro p hp
      rcases List.mem_cons.mp hp with rfl | hp2
      · apply hpres
        · exact stepOkGraph_places storage g h p nd ttp st hA hB hfh hlo hst hpid hgn
        · exact hheadne
      · exact hplaces p hp2
    · intro q hq hqne
      apply hpres
      · refine stepOkGraph_preserves storage g h item nd ttp st q hB hq hndlt ?_
        rw [← hpid]
        exact hqne item (List.mem_cons_self _ _)
      · intro p2 hp2
        exact hqne p2 (List.mem_cons_of_mem _ hp2)

/-- C6: for a plan whose entries are well-typed tensor values with distinct
producing nodes and Regions within the declared total, the applier succeeds;
exactly one `prim::AllocateTensor` node is added per managed value; and for
every entry the binding is in place: its directive node stands immediately
before the value's producing node, carries the byte offset, byte size,
per-axis extents, per-axis strides, target device and element type, takes
the storage output as input, and the producing node is rewired to take the
directive's output as an additional input (`BindingPlaced`). -/
theorem insertAllocTensorNodes_bindings (storage : MNode) (g : MGraph)
    (plan : List (Nat × Region))
    (hwf : WfGraph g)
    (hty : ∀ p ∈ plan, ∃ nd ttp st, findProducer g.nodes p.1 = some nd ∧
      lookupOutputTy nd p.1 = some (VType.tensor ttp) ∧ ttp.scalarType = some st ∧
      (p.2.offset + p.2.size) % U64 ≤ storage.attrs.total_size.getD 0)
    (hdist : (plan.map fun p => producerNidD g p.1).Nodup) :
    ∃ g2, insertAllocTensorNodes storage g plan = .ok g2 ∧
      countKind g2.nodes allocTensorKind =
        countKind g.nodes allocTensorKind + plan.length ∧
      ∀ p ∈ plan, BindingPlaced storage g g2 p := by
  obtain ⟨hnodup, hnid, hvid⟩ := hwf
  have hty2 : ∀ p ∈ plan, ∃ nd ttp st, findProducer g.nodes p.1 = some nd ∧
      nd.nid < g.nextNid ∧
      lookupOutputTy nd p.1 = some (VType.tensor ttp) ∧ ttp.scalarType = some st ∧
      (p.2.offset + p.2.size) % U64 ≤ storage.attrs.total_size.getD 0 := by
    intro p hp
    obtain ⟨nd, ttp, st, hfg, hlo, hst, hb⟩ := hty p hp
    exact ⟨nd, ttp, st, hfg, hnid nd (List.mem_of_find?_eq_some hfg), hlo, hst, hb⟩
  have hklt : ∀ p ∈ plan, p.1 < g.nextVid := by
    intro p hp
    obtain ⟨nd, ttp, st, hfg, _, _, _⟩ := hty p hp
    have hpred := List.find?_some hfg
    obtain ⟨o, ho, hoe⟩ := List.any_eq_true.mp hpred
    have hoe2 : o.1 = p.1 := eq_of_beq hoe
    rw [← hoe2]
    exact hvid nd (List.mem_of_find?_eq_some hfg) o ho
  obtain ⟨g2, hok, hcount, hplaces, _⟩ :=
    insertAllocTensorNodes_ok_aux storage g plan g hnodup hnid hvid
      (Nat.le_refl _) (Nat.le_refl _) hklt (fun p _ => rfl) hty2 hdist
  exact ⟨g2, hok, hcount, hplaces⟩

/-- Concrete tensor type for the C6 witness. -/
def tyW : TensorTy := TensorTy.mk (some 6) (some [2, 3]) (some [3, 1])

/-- Concrete two-node graph for the C6 witness. -/
def gW : MGraph := MGraph.mk
  [MNode.mk 0 "aten::add" [] [(5, VType.tensor tyW)] {},
   MNode.mk 1 "aten::mul" [] [(6, VType.tensor tyW)] {}] 2 7

/-- Concrete storage node for the C6 witness, declaring 100 bytes. -/
def storW : MNode := MNode.mk 2 allocStorageKind []
  [(7, VType.other)] { total_size := some 100, device := some 0 }

/-- Concrete two-entry plan for the C6 witness. -/
def planW : List (Nat × Region) := [(5, Region.mk 0 24), (6, Region.mk 24 24)]

/-- Witness for C6 on the concrete two-entry plan. -/
theorem insertAllocTensorNodes_bindings_witness :
    ∃ g2, insertAllocTensorNodes storW gW planW = .ok g2 ∧
      countKind g2.nodes allocTensorKind =
        countKind gW.nodes allocTensorKind + planW.length ∧
      ∀ p ∈ planW, BindingPlaced storW gW g2 p := by
  apply insertAllocTensorNodes_bindings storW gW planW (by decide)
  · intro p hp
    rcases List.mem_cons.mp hp with rfl | hp2
    · exact ⟨MNode.mk 0 "aten::add" [] [(5, VType.tensor tyW)] {}, tyW, 6,
        by decide, by decide, by decide, by decide⟩
    · rcases List.mem_cons.mp hp2 with rfl | hp3
      · exact ⟨MNode.mk 1 "aten::mul" [] [(6, VType.tensor tyW)] {}, tyW, 6,
          by decide, by decide, by decide, by decide⟩
      · cases hp3
  · decide

end MemPlan
